import Mathlib

/-!
Shallow embedding of the DataLink-AI join engine
(`src/services/dataService.ts`) and of the semantic-merge response
handling (`generateSemanticMerge` in the AI service module), together
with proofs about the embedded definitions.

JavaScript `Map`s and plain objects with string keys are modelled as
insertion-ordered association lists (`List (String × α)`); `Map.set`
and object assignment overwrite an existing key in place and append a
new key at the end, exactly as in the runtime.  Cell values are
modelled by the closed inductive type `Value`; numbers are modelled as
integers (every key and every value the claims exercise is integral).
-/

set_option maxHeartbeats 1000000

/-- A cell value as it appears in a parsed row: the JS scalars plus
arrays and plain objects (used by the sanitization pass). -/
inductive Value where
  | vNull : Value
  | vStr : String → Value
  | vNum : Int → Value
  | vBool : Bool → Value
  | vArr : List Value → Value
  | vObj : List (String × Value) → Value

/-- A row: a JS object mapping column names to values, in insertion order. -/
abbrev Row := List (String × Value)

/-- JS object / Map read: first (unique) binding of the key. -/
def mapGet {α : Type} (m : List (String × α)) (k : String) : Option α :=
  (m.find? (fun p => p.1 == k)).map (fun p => p.2)

/-- JS object / Map write: overwrite in place if present, else append. -/
def mapSet {α : Type} (m : List (String × α)) (k : String) (v : α) :
    List (String × α) :=
  if (mapGet m k).isSome then
    m.map (fun p => if p.1 == k then (k, v) else p)
  else m ++ [(k, v)]

/-- Iteration order of a JS Map / object: its keys in insertion order. -/
def mapKeys {α : Type} (m : List (String × α)) : List String :=
  m.map (fun p => p.1)

/-- JS `Set.add`: append the element unless already present. -/
def setAdd (s : List String) (k : String) : List String :=
  if k ∈ s then s else s ++ [k]

mutual
/-- `String(v)` of JavaScript on a modelled value. -/
def jsToString : Value → String
  | Value.vNull => "null"
  | Value.vStr s => s
  | Value.vNum n => toString n
  | Value.vBool b => if b then "true" else "false"
  | Value.vArr l => jsArrToString l
  | Value.vObj _ => "[object Object]"

/-- `Array.prototype.toString`: elements stringified (null as empty) and
joined with commas. -/
def jsArrToString : List Value → String
  | [] => ""
  | v :: vs =>
      (match v with
       | Value.vNull => ""
       | w => jsToString w)
      ++ (match vs with | [] => "" | _ :: _ => ",")
      ++ jsArrToString vs
end

/-- `String.prototype.trim`: strip leading and trailing whitespace
(space, tab, CR, LF — the whitespace the modelled data can contain). -/
def jsTrim (s : String) : String :=
  (((s.data.dropWhile Char.isWhitespace).reverse.dropWhile
    Char.isWhitespace).reverse).asString

/-- `const normalizeKey = (val) => (val === null || val === undefined) ? '' : String(val).trim();`
A missing column read (`undefined`) is the `none` case. -/
def normalizeKey (val : Option Value) : String :=
  match val with
  | none => ""
  | some Value.vNull => ""
  | some v => jsTrim (jsToString v)

/-- The fields of `ParsedFile` consumed by the join engine (the
remaining fields — id, size, headers, preview, counts, flags — are
never read by the modelled functions). -/
structure ParsedFile where
  name : String
  data : List Row

/-- One entry of `JoinCandidate.columnMappings`. -/
structure ColumnMapping where
  fileName : String
  columnName : String
deriving DecidableEq, Repr

/-- The fields of `JoinCandidate` consumed by the join engine. -/
structure JoinCandidate where
  keyName : String
  columnMappings : List ColumnMapping
deriving DecidableEq, Repr

/-- The `JoinType` enum. -/
inductive JoinType where
  | INNER : JoinType
  | OUTER : JoinType
  | LEFT : JoinType
  | ADDITIVE : JoinType
  | AI_SEMANTIC : JoinType
deriving DecidableEq, Repr

/-- The `JoinStats` record (AI_SEMANTIC always 0: computed on demand). -/
structure JoinStats where
  INNER : Nat
  OUTER : Nat
  LEFT : Nat
  ADDITIVE : Nat
  AI_SEMANTIC : Nat
deriving DecidableEq, Repr

/-- `getKeyColumnForFile`: the column mapped to this file, if any. -/
def getKeyColumnForFile (file : ParsedFile) (candidate : JoinCandidate) :
    Option String :=
  (candidate.columnMappings.find? (fun m => m.fileName == file.name)).map
    (fun m => m.columnName)

/-- One step of the `file.data.forEach` loop of `getKeyCountsFromFile`. -/
def countStep (keyCol : String) (counts : List (String × Nat)) (row : Row) :
    List (String × Nat) :=
  let val := normalizeKey (mapGet row keyCol)
  if val ≠ "" then mapSet counts val ((mapGet counts val).getD 0 + 1)
  else counts

/-- `getKeyCountsFromFile`: keys and occurrence counts of a file. -/
def getKeyCountsFromFile (file : ParsedFile) (candidate : JoinCandidate) :
    List (String × Nat) :=
  match getKeyColumnForFile file candidate with
  | none => []
  | some keyCol => file.data.foldl (countStep keyCol) []

/-- One step of the map-building `file.data.forEach` loop of `joinDatasets`
(`map.get(val)!.push(row)` after `map.set(val, [])` when absent). -/
def groupStep (keyCol : String) (m : List (String × List Row)) (row : Row) :
    List (String × List Row) :=
  let val := normalizeKey (mapGet row keyCol)
  if val ≠ "" then mapSet m val ((mapGet m val).getD [] ++ [row])
  else m

/-- The per-file `Map<string, any[]>` of key → rows built at the top of
`joinDatasets`. -/
def getFileDataMap (file : ParsedFile) (candidate : JoinCandidate) :
    List (String × List Row) :=
  match getKeyColumnForFile file candidate with
  | none => []
  | some keyCol => file.data.foldl (groupStep keyCol) []

/-- The `Set`-union of the keys of all per-file maps, in first-encountered
order (shared by `calculateJoinStats` and `joinDatasets`, which contain
the identical loop). -/
def allKeysFrom {α : Type} (maps : List (List (String × α))) : List String :=
  maps.foldl (fun s m => (mapKeys m).foldl setAdd s) []

/-- `calculateJoinStats`. -/
def calculateJoinStats (files : List ParsedFile) (candidate : JoinCandidate) :
    JoinStats :=
  let fileKeyCounts := files.map (fun f => getKeyCountsFromFile f candidate)
  if fileKeyCounts.length = 0 then
    { INNER := 0, OUTER := 0, LEFT := 0, ADDITIVE := 0, AI_SEMANTIC := 0 }
  else
    let allKeys := allKeysFrom fileKeyCounts
    let acc := allKeys.foldl (fun (acc : Nat × Nat × Nat) key =>
      let counts := fileKeyCounts.map (fun m => (mapGet m key).getD 0)
      let product := counts.foldl (fun a c => a * c) 1
      let outerProduct := counts.foldl (fun a c => a * (if c = 0 then 1 else c)) 1
      let leftAdd :=
        if counts.headD 0 > 0 then
          counts.headD 0 *
            (counts.drop 1).foldl (fun a c => a * (if c = 0 then 1 else c)) 1
        else 0
      (acc.1 + product, acc.2.1 + outerProduct, acc.2.2 + leftAdd)) (0, 0, 0)
    { INNER := acc.1, OUTER := acc.2.1, LEFT := acc.2.2,
      ADDITIVE := acc.2.1, AI_SEMANTIC := 0 }

/-- `file.name.replace(/\.[^/.]+$/, "")`: strip a final extension — a dot
followed by one or more characters none of which is a dot or slash. -/
def stripExtension (s : String) : String :=
  let r := s.data.reverse
  let afterDot := r.takeWhile (fun c => c ≠ '.')
  if afterDot.length < r.length ∧ afterDot ≠ [] ∧ (∀ c ∈ afterDot, c ≠ '/') then
    ((r.drop (afterDot.length + 1)).reverse).asString
  else s

/-- The character class `[a-zA-Z0-9]`. -/
def isAlphanumChar (c : Char) : Bool :=
  ('a' ≤ c && c ≤ 'z') || ('A' ≤ c && c ≤ 'Z') || ('0' ≤ c && c ≤ '9')

/-- `.replace(/[^a-zA-Z0-9]/g, "_")`. -/
def sanitizeFileName (s : String) : String :=
  (s.data.map (fun c => if isAlphanumChar c then c else '_')).asString

/-- `const cleanFileName = file.name.replace(/\.[^/.]+$/, "").replace(/[^a-zA-Z0-9]/g, "_")`. -/
def cleanFileNameOf (f : ParsedFile) : String :=
  sanitizeFileName (stripExtension f.name)

/-- The `cartesian` helper of `joinDatasets`:
`arrays.reduce((acc, curr) => acc.flatMap(a => curr.map(c => [...a, c])), [[]])`. -/
def cartesian {α : Type} (arrays : List (List α)) : List (List α) :=
  arrays.foldl (fun acc curr => acc.flatMap (fun a => curr.map (fun c => a ++ [c]))) [[]]

/-- The `rowsPerFile` arrays built for one key: a file's row group for the
key, or a single `null` placeholder when absent or empty. -/
def rowsPerFileAt (fileDataMaps : List (List (String × List Row)))
    (key : String) : List (List (Option Row)) :=
  fileDataMaps.map (fun m =>
    match mapGet m key with
    | some rows => if rows.length > 0 then rows.map some else [none]
    | none => [none])

/-- The `combo.forEach((row, fileIndex) => …)` body: accumulate the
joined row, `foundInFiles` and `missingInFiles` over the (row, file)
pairs of a combination. -/
def comboStep (candidate : JoinCandidate)
    (st : Row × List String × List String)
    (rf : Option Row × ParsedFile) : Row × List String × List String :=
  match rf.1 with
  | some row =>
      let file := rf.2
      let keyCol := getKeyColumnForFile file candidate
      let jr := row.foldl (fun jr cv =>
        if some cv.1 = keyCol then jr
        else mapSet jr (cleanFileNameOf file ++ " - " ++ cv.1) cv.2) st.1
      (jr, st.2.1 ++ [file.name], st.2.2)
  | none => (st.1, st.2.1, st.2.2 ++ [rf.2.name])

/-- The record built for one surviving combination (`combo.forEach` body
plus the ADDITIVE flag block).  The three accumulators are `joinedRow`,
`foundInFiles`, `missingInFiles`. -/
def buildJoinedRow (files : List ParsedFile) (candidate : JoinCandidate)
    (joinType : JoinType) (key : String) (combo : List (Option Row)) : Row :=
  let st := (combo.zip files).foldl (comboStep candidate)
    ([(candidate.keyName, Value.vStr key)], [], [])
  let joinedRow := st.1
  let foundInFiles := st.2.1
  let missingInFiles := st.2.2
  if joinType = JoinType.ADDITIVE then
    let jr :=
      if missingInFiles.length = 0 then
        mapSet joinedRow "_Join_Status" (Value.vStr "Matched (All Files)")
      else if foundInFiles.length = 1 then
        mapSet joinedRow "_Join_Status"
          (Value.vStr ("Unique to " ++ foundInFiles.headD ""))
      else
        mapSet joinedRow "_Join_Status"
          (Value.vStr ("Partial Match (Found in " ++
            toString foundInFiles.length ++ "/" ++ toString files.length ++ ")"))
    files.foldl (fun jr f =>
      mapSet jr ("_Found_In_" ++ cleanFileNameOf f)
        (Value.vStr (if foundInFiles.contains f.name then "TRUE" else "FALSE"))) jr
  else joinedRow

/-- The body of the `allKeys.forEach` loop of `joinDatasets`: the records
pushed for one key (empty when the join-type filter skips the key). -/
def recordsForKey (files : List ParsedFile) (candidate : JoinCandidate)
    (joinType : JoinType) (fileDataMaps : List (List (String × List Row)))
    (key : String) : List Row :=
  let rowsPerFile := rowsPerFileAt fileDataMaps key
  let hasDataInFile := rowsPerFile.map (fun arr => (arr.headD none).isSome)
  if joinType = JoinType.INNER ∧ hasDataInFile.any (fun h => !h) then []
  else if joinType = JoinType.LEFT ∧ !(hasDataInFile.headD false) then []
  else (cartesian rowsPerFile).map (buildJoinedRow files candidate joinType key)

/-- `joinDatasets`. -/
def joinDatasets (files : List ParsedFile) (candidate : JoinCandidate)
    (joinType : JoinType) : List Row :=
  let fileDataMaps := files.map (fun f => getFileDataMap f candidate)
  let allKeys := allKeysFrom fileDataMaps
  allKeys.foldl
    (fun result key =>
      result ++ recordsForKey files candidate joinType fileDataMaps key) []

/-- `typeof v === 'object'` (true for null, arrays and plain objects). -/
def isObjectLike : Value → Bool
  | Value.vNull => true
  | Value.vArr _ => true
  | Value.vObj _ => true
  | _ => false

/-- Minimal JSON string escaping (backslash and double quote). -/
def jsonEscape (s : String) : String :=
  (s.data.flatMap (fun c =>
    if c = '\\' then ['\\', '\\']
    else if c = '"' then ['\\', '"']
    else [c])).asString

mutual
/-- `JSON.stringify` on a modelled value. -/
def valueStringify : Value → String
  | Value.vNull => "null"
  | Value.vStr s => "\"" ++ jsonEscape s ++ "\""
  | Value.vNum n => toString n
  | Value.vBool b => if b then "true" else "false"
  | Value.vArr l => "[" ++ valueStringifyElems l ++ "]"
  | Value.vObj kvs => "\x7b" ++ valueStringifyFields kvs ++ "\x7d"

def valueStringifyElems : List Value → String
  | [] => ""
  | v :: vs =>
      valueStringify v
      ++ (match vs with | [] => "" | _ :: _ => ",")
      ++ valueStringifyElems vs

def valueStringifyFields : List (String × Value) → String
  | [] => ""
  | kv :: kvs =>
      "\"" ++ jsonEscape kv.1 ++ "\":" ++ valueStringify kv.2
      ++ (match kvs with | [] => "" | _ :: _ => ",")
      ++ valueStringifyFields kvs
end

/-- The per-value sanitization of `createJoinedFile`: null stays null,
arrays flatten to a `" | "`-joined string (object elements JSON-stringified,
primitive elements stringified), plain objects JSON-stringify, primitives
pass through. -/
def sanitizeValue : Value → Value
  | Value.vNull => Value.vNull
  | Value.vArr l =>
      Value.vStr (String.intercalate " | "
        (l.map (fun v => if isObjectLike v then valueStringify v else jsToString v)))
  | Value.vObj kvs => Value.vStr (valueStringify (Value.vObj kvs))
  | w => w

/-- The `sanitizedData` pass of `createJoinedFile` (the surrounding
ParsedFile construction — random id, byte size, preview slice — is
presentational and not modelled). -/
def createJoinedFileData (data : List Row) : List Row :=
  data.map (fun row => row.map (fun kv => (kv.1, sanitizeValue kv.2)))

/-- Scalar in the sense of the spec's JoinedRecord: string, number,
boolean or null — not array/object. -/
def isScalar : Value → Bool
  | Value.vArr _ => false
  | Value.vObj _ => false
  | _ => true

/-! ### Lemmas about the JS map model -/

theorem mapGet_nil {α : Type} (k : String) :
    mapGet ([] : List (String × α)) k = none := rfl

theorem mapGet_cons {α : Type} (a : String × α) (m : List (String × α))
    (k : String) :
    mapGet (a :: m) k = if a.1 = k then some a.2 else mapGet m k := by
  by_cases h : a.1 = k
  · simp [mapGet, List.find?_cons, h]
  · simp [mapGet, List.find?_cons, h]

theorem mapGet_append {α : Type} (m m' : List (String × α)) (k : String) :
    mapGet (m ++ m') k =
      match mapGet m k with
      | some v => some v
      | none => mapGet m' k := by
  induction m with
  | nil => simp [mapGet_nil]
  | cons a m ih =>
      by_cases h : a.1 = k <;> simp [mapGet_cons, h, ih]

theorem mapGet_map_overwrite {α : Type} (m : List (String × α)) (k : String)
    (v : α) :
    mapGet (m.map (fun p => if p.1 == k then (k, v) else p)) k =
      if (mapGet m k).isSome then some v else none := by
  induction m with
  | nil => simp [mapGet_nil]
  | cons a m ih =>
      simp only [List.map_cons]
      by_cases h : a.1 = k
      · rw [show ((if a.1 == k then (k, v) else a) : String × α) = (k, v) from by
          simp [h]]
        rw [mapGet_cons, mapGet_cons]
        simp [h]
      · rw [show ((if a.1 == k then (k, v) else a) : String × α) = a from by
          simp [h]]
        rw [mapGet_cons, if_neg h, ih, mapGet_cons, if_neg h]

theorem mapGet_map_overwrite_ne {α : Type} (m : List (String × α))
    (k k' : String) (v : α) (hne : k' ≠ k) :
    mapGet (m.map (fun p => if p.1 == k then (k, v) else p)) k' = mapGet m k' := by
  induction m with
  | nil => simp
  | cons a m ih =>
      simp only [List.map_cons]
      have h1 : ¬ (k = k') := fun hh => hne hh.symm
      by_cases h : a.1 = k
      · rw [show ((if a.1 == k then (k, v) else a) : String × α) = (k, v) from by
          simp [h]]
        rw [mapGet_cons, mapGet_cons, ih]
        have h2 : ¬ (a.1 = k') := h ▸ h1
        simp only [h1, h2, if_false]
      · rw [show ((if a.1 == k then (k, v) else a) : String × α) = a from by
          simp [h]]
        rw [mapGet_cons, mapGet_cons, ih]

theorem mapGet_mapSet_self {α : Type} (m : List (String × α)) (k : String)
    (v : α) : mapGet (mapSet m k v) k = some v := by
  unfold mapSet
  by_cases h : (mapGet m k).isSome
  · rw [if_pos h, mapGet_map_overwrite, if_pos h]
  · rw [if_neg h, mapGet_append]
    have : mapGet m k = none := by
      cases hh : mapGet m k
      · rfl
      · exact absurd (by simp [hh]) h
    simp [this, mapGet_cons]

theorem mapGet_mapSet_ne {α : Type} (m : List (String × α)) (k k' : String)
    (v : α) (hne : k' ≠ k) : mapGet (mapSet m k v) k' = mapGet m k' := by
  unfold mapSet
  by_cases h : (mapGet m k).isSome
  · rw [if_pos h, mapGet_map_overwrite_ne _ _ _ _ hne]
  · rw [if_neg h, mapGet_append]
    have h1 : ¬ (k = k') := fun hh => hne hh.symm
    cases hh : mapGet m k' <;> simp [hh, mapGet_cons, mapGet_nil, h1]

theorem mapKeys_nil {α : Type} : mapKeys ([] : List (String × α)) = [] := rfl

theorem mem_mapKeys_iff_isSome {α : Type} (m : List (String × α)) (k : String) :
    k ∈ mapKeys m ↔ (mapGet m k).isSome := by
  induction m with
  | nil => simp [mapKeys, mapGet_nil]
  | cons a m ih =>
      by_cases h : a.1 = k
      · simp [mapKeys, mapGet_cons, h]
      · have h1 : ¬ (k = a.1) := fun hh => h hh.symm
        simp [mapKeys, mapGet_cons, h, h1] at ih ⊢
        exact ih

theorem mapKeys_mapSet {α : Type} (m : List (String × α)) (k : String) (v : α) :
    mapKeys (mapSet m k v) = setAdd (mapKeys m) k := by
  unfold mapSet setAdd
  by_cases h : (mapGet m k).isSome
  · rw [if_pos h, if_pos ((mem_mapKeys_iff_isSome m k).mpr h)]
    unfold mapKeys
    rw [List.map_map]
    apply List.map_congr_left
    intro p _
    by_cases hp : p.1 = k <;> simp [hp]
  · rw [if_neg h, if_neg (fun hm => h ((mem_mapKeys_iff_isSome m k).mp hm))]
    simp [mapKeys]

theorem mem_setAdd (s : List String) (k x : String) :
    x ∈ setAdd s k ↔ x ∈ s ∨ x = k := by
  unfold setAdd
  by_cases h : k ∈ s
  · rw [if_pos h]
    constructor
    · exact Or.inl
    · rintro (hx | rfl) <;> assumption
  · rw [if_neg h]; simp

theorem mem_foldl_setAdd (l : List String) (s : List String) (x : String) :
    x ∈ l.foldl setAdd s ↔ x ∈ s ∨ x ∈ l := by
  induction l generalizing s with
  | nil => simp
  | cons a l ih =>
      simp only [List.foldl_cons, ih, mem_setAdd, List.mem_cons]
      tauto

/-! ### Characterization of the per-file folds

`fileGroup` is a derived description (a filter of the original data, in
original order) against which the imperative map-building folds are
verified. -/

/-- The rows of a file whose normalized key equals `k`, in original order. -/
def fileGroup (f : ParsedFile) (candidate : JoinCandidate) (k : String) :
    List Row :=
  match getKeyColumnForFile f candidate with
  | none => []
  | some kc => f.data.filter (fun r => normalizeKey (mapGet r kc) == k)

theorem groupFold_get (kc : String) (l : List Row)
    (m : List (String × List Row)) (k : String) (hk : k ≠ "") :
    mapGet (l.foldl (groupStep kc) m) k =
      if (l.filter (fun r => normalizeKey (mapGet r kc) == k)).isEmpty then
        mapGet m k
      else
        some ((mapGet m k).getD [] ++
          l.filter (fun r => normalizeKey (mapGet r kc) == k)) := by
  induction l generalizing m with
  | nil => simp
  | cons r l ih =>
      simp only [List.foldl_cons]
      by_cases hv : normalizeKey (mapGet r kc) = ""
      · have hstep : groupStep kc m r = m := by
          simp [groupStep, hv]
        have hfc : List.filter (fun r' => normalizeKey (mapGet r' kc) == k)
            (r :: l) = List.filter (fun r' => normalizeKey (mapGet r' kc) == k) l :=
          List.filter_cons_of_neg (by simp [hv]; exact fun hh => hk hh.symm)
        rw [hstep, hfc]
        exact ih m
      · by_cases hvk : normalizeKey (mapGet r kc) = k
        · have hstep : groupStep kc m r =
              mapSet m k ((mapGet m k).getD [] ++ [r]) := by
            simp [groupStep, hv, hvk, hk]
          have hfc : List.filter (fun r' => normalizeKey (mapGet r' kc) == k)
              (r :: l) =
              r :: List.filter (fun r' => normalizeKey (mapGet r' kc) == k) l :=
            List.filter_cons_of_pos (by simp [hvk])
          rw [hstep, hfc, ih]
          rw [mapGet_mapSet_self]
          cases hfil : l.filter (fun r => normalizeKey (mapGet r kc) == k) with
          | nil => simp
          | cons g gs => simp
        · have hstep : groupStep kc m r =
              mapSet m (normalizeKey (mapGet r kc))
                ((mapGet m (normalizeKey (mapGet r kc))).getD [] ++ [r]) := by
            simp [groupStep, hv]
          have hfc : List.filter (fun r' => normalizeKey (mapGet r' kc) == k)
              (r :: l) = List.filter (fun r' => normalizeKey (mapGet r' kc) == k) l :=
            List.filter_cons_of_neg (by simp [hvk])
          have hget : mapGet (mapSet m (normalizeKey (mapGet r kc))
              ((mapGet m (normalizeKey (mapGet r kc))).getD [] ++ [r])) k =
              mapGet m k :=
            mapGet_mapSet_ne _ _ _ _ (fun hh => hvk hh.symm)
          rw [hstep, hfc, ih, hget]

theorem countFold_get (kc : String) (l : List Row)
    (m : List (String × Nat)) (k : String) (hk : k ≠ "") :
    mapGet (l.foldl (countStep kc) m) k =
      if (l.filter (fun r => normalizeKey (mapGet r kc) == k)).isEmpty then
        mapGet m k
      else
        some ((mapGet m k).getD 0 +
          (l.filter (fun r => normalizeKey (mapGet r kc) == k)).length) := by
  induction l generalizing m with
  | nil => simp
  | cons r l ih =>
      simp only [List.foldl_cons]
      by_cases hv : normalizeKey (mapGet r kc) = ""
      · have hstep : countStep kc m r = m := by
          simp [countStep, hv]
        have hfc : List.filter (fun r' => normalizeKey (mapGet r' kc) == k)
            (r :: l) = List.filter (fun r' => normalizeKey (mapGet r' kc) == k) l :=
          List.filter_cons_of_neg (by simp [hv]; exact fun hh => hk hh.symm)
        rw [hstep, hfc]
        exact ih m
      · by_cases hvk : normalizeKey (mapGet r kc) = k
        · have hstep : countStep kc m r =
              mapSet m k ((mapGet m k).getD 0 + 1) := by
            simp [countStep, hv, hvk, hk]
          have hfc : List.filter (fun r' => normalizeKey (mapGet r' kc) == k)
              (r :: l) =
              r :: List.filter (fun r' => normalizeKey (mapGet r' kc) == k) l :=
            List.filter_cons_of_pos (by simp [hvk])
          rw [hstep, hfc, ih]
          rw [mapGet_mapSet_self]
          cases hfil : l.filter (fun r => normalizeKey (mapGet r kc) == k) with
          | nil => simp
          | cons g gs => simp; omega
        · have hstep : countStep kc m r =
              mapSet m (normalizeKey (mapGet r kc))
                ((mapGet m (normalizeKey (mapGet r kc))).getD 0 + 1) := by
            simp [countStep, hv]
          have hfc : List.filter (fun r' => normalizeKey (mapGet r' kc) == k)
              (r :: l) = List.filter (fun r' => normalizeKey (mapGet r' kc) == k) l :=
            List.filter_cons_of_neg (by simp [hvk])
          have hget : mapGet (mapSet m (normalizeKey (mapGet r kc))
              ((mapGet m (normalizeKey (mapGet r kc))).getD 0 + 1)) k =
              mapGet m k :=
            mapGet_mapSet_ne _ _ _ _ (fun hh => hvk hh.symm)
          rw [hstep, hfc, ih, hget]


/-- The group map read, described by `fileGroup` (for any non-sentinel key). -/
theorem getFileDataMap_get (f : ParsedFile) (candidate : JoinCandidate)
    (k : String) (hk : k ≠ "") :
    mapGet (getFileDataMap f candidate) k =
      if (fileGroup f candidate k).isEmpty then none
      else some (fileGroup f candidate k) := by
  cases hkc : getKeyColumnForFile f candidate with
  | none =>
      have h1 : getFileDataMap f candidate = [] := by
        unfold getFileDataMap; rw [hkc]
      have h2 : fileGroup f candidate k = [] := by
        unfold fileGroup; rw [hkc]
      rw [h1, h2]; simp [mapGet_nil]
  | some kc =>
      have h1 : getFileDataMap f candidate = f.data.foldl (groupStep kc) [] := by
        unfold getFileDataMap; rw [hkc]
      have h2 : fileGroup f candidate k =
          f.data.filter (fun r => normalizeKey (mapGet r kc) == k) := by
        unfold fileGroup; rw [hkc]
      rw [h1, h2, groupFold_get kc f.data [] k hk]
      simp [mapGet_nil]

/-- The count map read, described by the length of `fileGroup`. -/
theorem getKeyCountsFromFile_get (f : ParsedFile) (candidate : JoinCandidate)
    (k : String) (hk : k ≠ "") :
    mapGet (getKeyCountsFromFile f candidate) k =
      if (fileGroup f candidate k).isEmpty then none
      else some (fileGroup f candidate k).length := by
  cases hkc : getKeyColumnForFile f candidate with
  | none =>
      have h1 : getKeyCountsFromFile f candidate = [] := by
        unfold getKeyCountsFromFile; rw [hkc]
      have h2 : fileGroup f candidate k = [] := by
        unfold fileGroup; rw [hkc]
      rw [h1, h2]; simp [mapGet_nil]
  | some kc =>
      have h1 : getKeyCountsFromFile f candidate =
          f.data.foldl (countStep kc) [] := by
        unfold getKeyCountsFromFile; rw [hkc]
      have h2 : fileGroup f candidate k =
          f.data.filter (fun r => normalizeKey (mapGet r kc) == k) := by
        unfold fileGroup; rw [hkc]
      rw [h1, h2, countFold_get kc f.data [] k hk]
      simp [mapGet_nil]

/-- Count read with default 0 equals the group length. -/
theorem countGetD_eq_groupLength (f : ParsedFile) (candidate : JoinCandidate)
    (k : String) (hk : k ≠ "") :
    (mapGet (getKeyCountsFromFile f candidate) k).getD 0 =
      (fileGroup f candidate k).length := by
  rw [getKeyCountsFromFile_get f candidate k hk]
  cases hfil : fileGroup f candidate k with
  | nil => simp
  | cons g gs => simp

/-! ### Key lists and the key union -/

/-- First-occurrence deduplication relative to already-seen keys
(the spec-side description of repeated `Set.add`). -/
def dedupFirstAux (seen : List String) : List String → List String
  | [] => []
  | x :: xs =>
      if x ∈ seen then dedupFirstAux seen xs
      else x :: dedupFirstAux (seen ++ [x]) xs

/-- First-occurrence deduplication of a list of keys. -/
def dedupFirst (l : List String) : List String := dedupFirstAux [] l

theorem foldl_setAdd_eq_dedup (l : List String) (seen : List String) :
    l.foldl setAdd seen = seen ++ dedupFirstAux seen l := by
  induction l generalizing seen with
  | nil => simp [dedupFirstAux]
  | cons x xs ih =>
      simp only [List.foldl_cons, dedupFirstAux]
      by_cases h : x ∈ seen
      · rw [if_pos h, show setAdd seen x = seen from if_pos h, ih]
      · rw [if_neg h, show setAdd seen x = seen ++ [x] from if_neg h, ih]
        simp

/-- The normalized non-empty keys of a file's rows, in row order. -/
def fileKeyList (f : ParsedFile) (candidate : JoinCandidate) : List String :=
  match getKeyColumnForFile f candidate with
  | none => []
  | some kc =>
      (f.data.map (fun r => normalizeKey (mapGet r kc))).filter
        (fun v => !(v == ""))

theorem groupFold_keys (kc : String) (l : List Row)
    (m : List (String × List Row)) :
    mapKeys (l.foldl (groupStep kc) m) =
      ((l.map (fun r => normalizeKey (mapGet r kc))).filter
        (fun v => !(v == ""))).foldl setAdd (mapKeys m) := by
  induction l generalizing m with
  | nil => simp
  | cons r l ih =>
      simp only [List.foldl_cons, List.map_cons]
      by_cases hv : normalizeKey (mapGet r kc) = ""
      · have hstep : groupStep kc m r = m := by simp [groupStep, hv]
        have hfc : List.filter (fun v => !(v == ""))
            (normalizeKey (mapGet r kc) :: l.map (fun r => normalizeKey (mapGet r kc))) =
            List.filter (fun v => !(v == ""))
              (l.map (fun r => normalizeKey (mapGet r kc))) :=
          List.filter_cons_of_neg (by simp [hv])
        rw [hstep, hfc, ih]
      · have hstep : groupStep kc m r =
            mapSet m (normalizeKey (mapGet r kc))
              ((mapGet m (normalizeKey (mapGet r kc))).getD [] ++ [r]) := by
          simp [groupStep, hv]
        have hfc : List.filter (fun v => !(v == ""))
            (normalizeKey (mapGet r kc) :: l.map (fun r => normalizeKey (mapGet r kc))) =
            normalizeKey (mapGet r kc) ::
              List.filter (fun v => !(v == ""))
                (l.map (fun r => normalizeKey (mapGet r kc))) :=
          List.filter_cons_of_pos (by simp [hv])
        rw [hstep, hfc, ih, List.foldl_cons, mapKeys_mapSet]

theorem countFold_keys (kc : String) (l : List Row)
    (m : List (String × Nat)) :
    mapKeys (l.foldl (countStep kc) m) =
      ((l.map (fun r => normalizeKey (mapGet r kc))).filter
        (fun v => !(v == ""))).foldl setAdd (mapKeys m) := by
  induction l generalizing m with
  | nil => simp
  | cons r l ih =>
      simp only [List.foldl_cons, List.map_cons]
      by_cases hv : normalizeKey (mapGet r kc) = ""
      · have hstep : countStep kc m r = m := by simp [countStep, hv]
        have hfc : List.filter (fun v => !(v == ""))
            (normalizeKey (mapGet r kc) :: l.map (fun r => normalizeKey (mapGet r kc))) =
            List.filter (fun v => !(v == ""))
              (l.map (fun r => normalizeKey (mapGet r kc))) :=
          List.filter_cons_of_neg (by simp [hv])
        rw [hstep, hfc, ih]
      · have hstep : countStep kc m r =
            mapSet m (normalizeKey (mapGet r kc))
              ((mapGet m (normalizeKey (mapGet r kc))).getD 0 + 1) := by
          simp [countStep, hv]
        have hfc : List.filter (fun v => !(v == ""))
            (normalizeKey (mapGet r kc) :: l.map (fun r => normalizeKey (mapGet r kc))) =
            normalizeKey (mapGet r kc) ::
              List.filter (fun v => !(v == ""))
                (l.map (fun r => normalizeKey (mapGet r kc))) :=
          List.filter_cons_of_pos (by simp [hv])
        rw [hstep, hfc, ih, List.foldl_cons, mapKeys_mapSet]

/-- The counts map and the rows map of a file have identical key lists. -/
theorem mapKeys_counts_eq_groups (f : ParsedFile) (candidate : JoinCandidate) :
    mapKeys (getKeyCountsFromFile f candidate) =
      mapKeys (getFileDataMap f candidate) := by
  cases hkc : getKeyColumnForFile f candidate with
  | none =>
      have h1 : getKeyCountsFromFile f candidate = [] := by
        unfold getKeyCountsFromFile; rw [hkc]
      have h2 : getFileDataMap f candidate = [] := by
        unfold getFileDataMap; rw [hkc]
      rw [h1, h2]
      rfl
  | some kc =>
      have h1 : getKeyCountsFromFile f candidate =
          f.data.foldl (countStep kc) [] := by
        unfold getKeyCountsFromFile; rw [hkc]
      have h2 : getFileDataMap f candidate =
          f.data.foldl (groupStep kc) [] := by
        unfold getFileDataMap; rw [hkc]
      rw [h1, h2, countFold_keys, groupFold_keys]
      rfl

/-- The key list of the per-file rows map, as first-occurrence
deduplication of the file's normalized non-empty keys. -/
theorem mapKeys_getFileDataMap (f : ParsedFile) (candidate : JoinCandidate) :
    mapKeys (getFileDataMap f candidate) = dedupFirst (fileKeyList f candidate) := by
  cases hkc : getKeyColumnForFile f candidate with
  | none =>
      have h2 : getFileDataMap f candidate = [] := by
        unfold getFileDataMap; rw [hkc]
      have h3 : fileKeyList f candidate = [] := by
        unfold fileKeyList; rw [hkc]
      rw [h2, h3]
      rfl
  | some kc =>
      have h2 : getFileDataMap f candidate =
          f.data.foldl (groupStep kc) [] := by
        unfold getFileDataMap; rw [hkc]
      have h3 : fileKeyList f candidate =
          (f.data.map (fun r => normalizeKey (mapGet r kc))).filter
            (fun v => !(v == "")) := by
        unfold fileKeyList; rw [hkc]
      rw [h2, h3, groupFold_keys, dedupFirst, foldl_setAdd_eq_dedup]
      rfl

/-- `allKeysFrom` depends only on the key lists of the maps. -/
theorem allKeysFrom_congr {α β : Type} (ms : List (List (String × α)))
    (ms' : List (List (String × β))) (h : ms.map mapKeys = ms'.map mapKeys) :
    allKeysFrom ms = allKeysFrom ms' := by
  unfold allKeysFrom
  suffices haux : ∀ (ms : List (List (String × α)))
      (ms' : List (List (String × β))) (s : List String),
      ms.map mapKeys = ms'.map mapKeys →
      ms.foldl (fun s m => (mapKeys m).foldl setAdd s) s =
        ms'.foldl (fun s m => (mapKeys m).foldl setAdd s) s from
    haux ms ms' [] h
  intro ms ms' s hmk
  induction ms generalizing ms' s with
  | nil =>
      cases ms' with
      | nil => rfl
      | cons b bs => exact absurd hmk (by simp)
  | cons a as ih =>
      cases ms' with
      | nil => exact absurd hmk (by simp)
      | cons b bs =>
          simp only [List.map_cons, List.cons.injEq] at hmk
          simp only [List.foldl_cons, hmk.1]
          exact ih bs _ hmk.2

/-- Membership in the key union. -/
theorem mem_allKeysFrom {α : Type} (ms : List (List (String × α))) (x : String) :
    x ∈ allKeysFrom ms ↔ ∃ m ∈ ms, x ∈ mapKeys m := by
  unfold allKeysFrom
  suffices haux : ∀ (ms : List (List (String × α))) (s : List String),
      x ∈ ms.foldl (fun s m => (mapKeys m).foldl setAdd s) s ↔
        x ∈ s ∨ ∃ m ∈ ms, x ∈ mapKeys m by
    rw [haux ms []]
    simp
  intro ms s
  induction ms generalizing s with
  | nil => simp
  | cons a as ih =>
      simp only [List.foldl_cons, ih, mem_foldl_setAdd, List.mem_cons]
      constructor
      · rintro ((hs | ha) | ⟨m, hm, hx⟩)
        · exact Or.inl hs
        · exact Or.inr ⟨a, Or.inl rfl, ha⟩
        · exact Or.inr ⟨m, Or.inr hm, hx⟩
      · rintro (hs | ⟨m, (rfl | hm), hx⟩)
        · exact Or.inl (Or.inl hs)
        · exact Or.inl (Or.inr hx)
        · exact Or.inr ⟨m, hm, hx⟩

/-- The fold building the rows map never touches the empty-string key. -/
theorem groupFold_get_sentinel (kc : String) (l : List Row)
    (m : List (String × List Row)) :
    mapGet (l.foldl (groupStep kc) m) "" = mapGet m "" := by
  induction l generalizing m with
  | nil => rfl
  | cons r l ih =>
      simp only [List.foldl_cons]
      by_cases hv : normalizeKey (mapGet r kc) = ""
      · rw [show groupStep kc m r = m from by simp [groupStep, hv]]
        exact ih m
      · rw [show groupStep kc m r =
            mapSet m (normalizeKey (mapGet r kc))
              ((mapGet m (normalizeKey (mapGet r kc))).getD [] ++ [r]) from by
          simp [groupStep, hv]]
        rw [ih, mapGet_mapSet_ne _ _ _ _ (fun hh => hv hh.symm)]

/-- The fold building the counts map never touches the empty-string key. -/
theorem countFold_get_sentinel (kc : String) (l : List Row)
    (m : List (String × Nat)) :
    mapGet (l.foldl (countStep kc) m) "" = mapGet m "" := by
  induction l generalizing m with
  | nil => rfl
  | cons r l ih =>
      simp only [List.foldl_cons]
      by_cases hv : normalizeKey (mapGet r kc) = ""
      · rw [show countStep kc m r = m from by simp [countStep, hv]]
        exact ih m
      · rw [show countStep kc m r =
            mapSet m (normalizeKey (mapGet r kc))
              ((mapGet m (normalizeKey (mapGet r kc))).getD 0 + 1) from by
          simp [countStep, hv]]
        rw [ih, mapGet_mapSet_ne _ _ _ _ (fun hh => hv hh.symm)]

/-- The rows map has no entry for the empty-string sentinel. -/
theorem getFileDataMap_get_sentinel (f : ParsedFile) (candidate : JoinCandidate) :
    mapGet (getFileDataMap f candidate) "" = none := by
  cases hkc : getKeyColumnForFile f candidate with
  | none =>
      rw [show getFileDataMap f candidate = [] from by
        unfold getFileDataMap; rw [hkc]]
      rfl
  | some kc =>
      rw [show getFileDataMap f candidate = f.data.foldl (groupStep kc) [] from by
        unfold getFileDataMap; rw [hkc]]
      rw [groupFold_get_sentinel]
      rfl

/-- The counts map has no entry for the empty-string sentinel. -/
theorem getKeyCountsFromFile_get_sentinel (f : ParsedFile)
    (candidate : JoinCandidate) :
    mapGet (getKeyCountsFromFile f candidate) "" = none := by
  cases hkc : getKeyColumnForFile f candidate with
  | none =>
      rw [show getKeyCountsFromFile f candidate = [] from by
        unfold getKeyCountsFromFile; rw [hkc]]
      rfl
  | some kc =>
      rw [show getKeyCountsFromFile f candidate =
          f.data.foldl (countStep kc) [] from by
        unfold getKeyCountsFromFile; rw [hkc]]
      rw [countFold_get_sentinel]
      rfl

/-- Every key in the key union of the per-file rows maps is non-empty. -/
theorem mem_allKeys_ne_sentinel (files : List ParsedFile)
    (candidate : JoinCandidate) (k : String)
    (hmem : k ∈ allKeysFrom (files.map (fun f => getFileDataMap f candidate))) :
    k ≠ "" := by
  intro hk
  subst hk
  obtain ⟨m, hm, hkm⟩ := (mem_allKeysFrom _ _).mp hmem
  obtain ⟨f, _, rfl⟩ := List.mem_map.mp hm
  have := (mem_mapKeys_iff_isSome _ _).mp hkm
  rw [getFileDataMap_get_sentinel] at this
  simp at this

/-! ### The cartesian product -/

/-- Spec-side cartesian product: dataset 0 varies slowest, the last
dataset varies fastest (nested iteration). -/
def specCartesian {α : Type} : List (List α) → List (List α)
  | [] => [[]]
  | l :: ls => l.flatMap (fun x => (specCartesian ls).map (fun ys => x :: ys))

theorem flatMap_pure {α : Type} (l : List α) :
    l.flatMap (fun a => [a]) = l := by
  induction l with
  | nil => rfl
  | cons a l ih => simp [List.flatMap_cons, ih]

theorem cartesian_foldl_eq {α : Type} (ls : List (List α)) :
    ∀ (acc : List (List α)),
    ls.foldl (fun acc curr => acc.flatMap (fun a => curr.map (fun c => a ++ [c]))) acc
      = acc.flatMap (fun a => (specCartesian ls).map (fun ys => a ++ ys)) := by
  induction ls with
  | nil =>
      intro acc
      simp only [List.foldl_nil, specCartesian]
      rw [show (fun a => List.map (fun ys => a ++ ys) [([] : List α)]) =
          (fun a => [a]) from by funext a; simp]
      rw [flatMap_pure]
  | cons l ls ih =>
      intro acc
      simp only [List.foldl_cons]
      rw [ih]
      simp only [specCartesian, List.flatMap_assoc, List.flatMap_map,
        List.map_flatMap, List.map_map]
      apply List.flatMap_congr
      intro a _
      apply List.flatMap_congr
      intro c _
      simp [Function.comp_def, List.append_assoc]

/-- The source's reduce-based `cartesian` equals the nested-iteration
cartesian product. -/
theorem cartesian_eq_specCartesian {α : Type} (ls : List (List α)) :
    cartesian ls = specCartesian ls := by
  unfold cartesian
  rw [cartesian_foldl_eq ls [[]]]
  simp [List.flatMap_cons]

theorem sum_map_const_length {α : Type} (l : List α) (c : Nat) :
    (l.map (fun _ => c)).sum = l.length * c := by
  induction l with
  | nil => simp
  | cons a l ih => simp [ih, Nat.succ_mul, Nat.add_comm]

/-- Cardinality of the cartesian product: the product of the lengths. -/
theorem specCartesian_length {α : Type} (ls : List (List α)) :
    (specCartesian ls).length = (ls.map List.length).prod := by
  induction ls with
  | nil => rfl
  | cons l ls ih =>
      simp only [specCartesian, List.length_flatMap, List.map_cons,
        List.prod_cons]
      rw [show List.map (List.length ∘ fun x => (specCartesian ls).map
          (fun ys => x :: ys)) l =
          List.map (fun _ => (specCartesian ls).length) l from by
        apply List.map_congr_left; intro x _; simp [Function.comp_def]]
      rw [sum_map_const_length, ih]

/-- Members of the cartesian product: one element of each input list,
positionally. -/
theorem mem_specCartesian {α : Type} :
    ∀ (ls : List (List α)) (combo : List α), combo ∈ specCartesian ls →
      combo.length = ls.length ∧
        ∀ i a b, combo.get? i = some a → ls.get? i = some b → a ∈ b := by
  intro ls
  induction ls with
  | nil =>
      intro combo hmem
      simp only [specCartesian, List.mem_singleton] at hmem
      subst hmem
      exact ⟨rfl, by intro i a b ha; simp at ha⟩
  | cons l ls ih =>
      intro combo hmem
      simp only [specCartesian, List.mem_flatMap, List.mem_map] at hmem
      obtain ⟨x, hx, ys, hys, rfl⟩ := hmem
      obtain ⟨hlen, hidx⟩ := ih ys hys
      refine ⟨by simp [hlen], ?_⟩
      intro i a b ha hb
      cases i with
      | zero =>
          simp only [List.get?_cons_zero, Option.some.injEq] at ha hb
          subst ha; subst hb; exact hx
      | succ i =>
          simp only [List.get?_cons_succ] at ha hb
          exact hidx i a b ha hb

/-! ### Structure of `joinDatasets` -/

theorem foldl_append_eq_flatMap {α β : Type} (l : List α) (g : α → List β) :
    ∀ (init : List β),
    l.foldl (fun r k => r ++ g k) init = init ++ l.flatMap g := by
  induction l with
  | nil => intro init; simp
  | cons a l ih => intro init; simp [ih]

/-- `joinDatasets` is the concatenation, over the key union in order, of
the per-key record lists. -/
theorem joinDatasets_eq_flatMap (files : List ParsedFile)
    (candidate : JoinCandidate) (joinType : JoinType) :
    joinDatasets files candidate joinType =
      (allKeysFrom (files.map (fun f => getFileDataMap f candidate))).flatMap
        (recordsForKey files candidate joinType
          (files.map (fun f => getFileDataMap f candidate))) := by
  unfold joinDatasets
  rw [foldl_append_eq_flatMap]
  simp

/-! ### Characterization of `calculateJoinStats` -/

/-- The per-dataset occurrence counts of a key (`counts` in the source). -/
def statKeyCounts (files : List ParsedFile) (candidate : JoinCandidate)
    (k : String) : List Nat :=
  files.map (fun f => (mapGet (getKeyCountsFromFile f candidate) k).getD 0)

/-- Per-key INNER contribution: the product of all counts. -/
def innerTermOf (files : List ParsedFile) (candidate : JoinCandidate)
    (k : String) : Nat :=
  (statKeyCounts files candidate k).prod

/-- Per-key OUTER/ADDITIVE contribution: the product of the counts with
zeroes replaced by a virtual placeholder of 1. -/
def outerTermOf (files : List ParsedFile) (candidate : JoinCandidate)
    (k : String) : Nat :=
  ((statKeyCounts files candidate k).map (fun c => if c = 0 then 1 else c)).prod

/-- Per-key LEFT contribution: zero unless dataset 0 has the key. -/
def leftTermOf (files : List ParsedFile) (candidate : JoinCandidate)
    (k : String) : Nat :=
  if (statKeyCounts files candidate k).headD 0 > 0 then
    (statKeyCounts files candidate k).headD 0 *
      (((statKeyCounts files candidate k).drop 1).map
        (fun c => if c = 0 then 1 else c)).prod
  else 0

theorem foldl_mul_eq_prod (l : List Nat) : ∀ (a : Nat),
    l.foldl (fun x c => x * c) a = a * l.prod := by
  induction l with
  | nil => intro a; simp
  | cons c l ih => intro a; simp [ih, Nat.mul_assoc]

theorem foldl_mul_ifzero_eq_prod (l : List Nat) : ∀ (a : Nat),
    l.foldl (fun x c => x * (if c = 0 then 1 else c)) a =
      a * (l.map (fun c => if c = 0 then 1 else c)).prod := by
  induction l with
  | nil => intro a; simp
  | cons c l ih =>
      intro a
      simp only [List.foldl_cons, List.map_cons, List.prod_cons]
      rw [ih, Nat.mul_assoc]

theorem foldl_triple_sum (l : List String) (f g h : String → Nat) :
    ∀ (a b c : Nat),
    l.foldl (fun acc k => (acc.1 + f k, acc.2.1 + g k, acc.2.2 + h k)) (a, b, c) =
      (a + (l.map f).sum, b + (l.map g).sum, c + (l.map h).sum) := by
  induction l with
  | nil => intro a b c; simp
  | cons x l ih =>
      intro a b c
      simp only [List.foldl_cons, List.map_cons, List.sum_cons, ih]
      refine congrArg₂ _ ?_ (congrArg₂ _ ?_ ?_) <;> omega

/-- `calculateJoinStats` on a non-empty file list: each estimate is the
sum of the per-key contributions over the key union. -/
theorem calculateJoinStats_characterization (files : List ParsedFile)
    (candidate : JoinCandidate) (hne : files ≠ []) :
    calculateJoinStats files candidate =
      { INNER := ((allKeysFrom (files.map (fun f => getKeyCountsFromFile f candidate))).map
          (innerTermOf files candidate)).sum,
        OUTER := ((allKeysFrom (files.map (fun f => getKeyCountsFromFile f candidate))).map
          (outerTermOf files candidate)).sum,
        LEFT := ((allKeysFrom (files.map (fun f => getKeyCountsFromFile f candidate))).map
          (leftTermOf files candidate)).sum,
        ADDITIVE := ((allKeysFrom (files.map (fun f => getKeyCountsFromFile f candidate))).map
          (outerTermOf files candidate)).sum,
        AI_SEMANTIC := 0 } := by
  unfold calculateJoinStats
  have hlen : ¬ ((files.map (fun f => getKeyCountsFromFile f candidate)).length = 0) := by
    simp only [List.length_map, List.length_eq_zero]
    exact hne
  simp only [hlen, if_false]
  rw [foldl_triple_sum _
    (fun key => ((files.map (fun f => getKeyCountsFromFile f candidate)).map
      (fun m => (mapGet m key).getD 0)).foldl (fun a c => a * c) 1)
    (fun key => ((files.map (fun f => getKeyCountsFromFile f candidate)).map
      (fun m => (mapGet m key).getD 0)).foldl
        (fun a c => a * (if c = 0 then 1 else c)) 1)
    (fun key =>
      if ((files.map (fun f => getKeyCountsFromFile f candidate)).map
          (fun m => (mapGet m key).getD 0)).headD 0 > 0 then
        ((files.map (fun f => getKeyCountsFromFile f candidate)).map
          (fun m => (mapGet m key).getD 0)).headD 0 *
          (((files.map (fun f => getKeyCountsFromFile f candidate)).map
            (fun m => (mapGet m key).getD 0)).drop 1).foldl
              (fun a c => a * (if c = 0 then 1 else c)) 1
      else 0)
    0 0 0]
  have hcounts : ∀ key,
      (files.map (fun f => getKeyCountsFromFile f candidate)).map
        (fun m => (mapGet m key).getD 0) = statKeyCounts files candidate key := by
    intro key
    rw [List.map_map]
    rfl
  have hinner : ∀ key,
      ((files.map (fun f => getKeyCountsFromFile f candidate)).map
        (fun m => (mapGet m key).getD 0)).foldl (fun a c => a * c) 1 =
        innerTermOf files candidate key := by
    intro key
    rw [hcounts, foldl_mul_eq_prod, Nat.one_mul]
    rfl
  have houter : ∀ key,
      ((files.map (fun f => getKeyCountsFromFile f candidate)).map
        (fun m => (mapGet m key).getD 0)).foldl
          (fun a c => a * (if c = 0 then 1 else c)) 1 =
        outerTermOf files candidate key := by
    intro key
    rw [hcounts, foldl_mul_ifzero_eq_prod, Nat.one_mul]
    rfl
  have hleft : ∀ key,
      (if ((files.map (fun f => getKeyCountsFromFile f candidate)).map
          (fun m => (mapGet m key).getD 0)).headD 0 > 0 then
        ((files.map (fun f => getKeyCountsFromFile f candidate)).map
          (fun m => (mapGet m key).getD 0)).headD 0 *
          (((files.map (fun f => getKeyCountsFromFile f candidate)).map
            (fun m => (mapGet m key).getD 0)).drop 1).foldl
              (fun a c => a * (if c = 0 then 1 else c)) 1
      else 0) = leftTermOf files candidate key := by
    intro key
    rw [hcounts, foldl_mul_ifzero_eq_prod, Nat.one_mul]
    rfl
  rw [funext hinner, funext houter, funext hleft]
  simp only [Nat.zero_add]

/-! ### Per-key characterization of the executor -/

theorem rowsPerFileAt_eq (files : List ParsedFile) (candidate : JoinCandidate)
    (k : String) (hk : k ≠ "") :
    rowsPerFileAt (files.map (fun f => getFileDataMap f candidate)) k =
      files.map (fun f =>
        if (fileGroup f candidate k).isEmpty then [(none : Option Row)]
        else (fileGroup f candidate k).map some) := by
  unfold rowsPerFileAt
  rw [List.map_map]
  apply List.map_congr_left
  intro f _
  simp only [Function.comp_def]
  rw [getFileDataMap_get f candidate k hk]
  cases hfil : fileGroup f candidate k with
  | nil => simp
  | cons g gs => simp

theorem rowsPerFileAt_lengths (files : List ParsedFile)
    (candidate : JoinCandidate) (k : String) (hk : k ≠ "") :
    (rowsPerFileAt (files.map (fun f => getFileDataMap f candidate)) k).map
        List.length =
      (statKeyCounts files candidate k).map (fun c => if c = 0 then 1 else c) := by
  rw [rowsPerFileAt_eq files candidate k hk, List.map_map]
  unfold statKeyCounts
  rw [List.map_map]
  apply List.map_congr_left
  intro f _
  simp only [Function.comp_def]
  rw [countGetD_eq_groupLength f candidate k hk]
  cases hfil : fileGroup f candidate k with
  | nil => simp
  | cons g gs => simp

theorem rowsPerFileAt_hasData (files : List ParsedFile)
    (candidate : JoinCandidate) (k : String) (hk : k ≠ "") :
    (rowsPerFileAt (files.map (fun f => getFileDataMap f candidate)) k).map
        (fun arr => (arr.headD none).isSome) =
      files.map (fun f => !(fileGroup f candidate k).isEmpty) := by
  rw [rowsPerFileAt_eq files candidate k hk, List.map_map]
  apply List.map_congr_left
  intro f _
  simp only [Function.comp_def]
  cases hfil : fileGroup f candidate k with
  | nil => simp
  | cons g gs => simp

/-- Length of the per-key output in the OUTER and ADDITIVE modes. -/
theorem recordsForKey_length_outer (files : List ParsedFile)
    (candidate : JoinCandidate) (k : String) (hk : k ≠ "") (jt : JoinType)
    (hjt : jt = JoinType.OUTER ∨ jt = JoinType.ADDITIVE) :
    (recordsForKey files candidate jt
      (files.map (fun f => getFileDataMap f candidate)) k).length =
      outerTermOf files candidate k := by
  unfold recordsForKey
  have h1 : ¬ (jt = JoinType.INNER ∧
      ((rowsPerFileAt (files.map (fun f => getFileDataMap f candidate)) k).map
        (fun arr => (arr.headD none).isSome)).any (fun h => !h) = true) := by
    rintro ⟨h, -⟩
    rcases hjt with rfl | rfl <;> exact absurd h (by decide)
  have h2 : ¬ (jt = JoinType.LEFT ∧
      (!(((rowsPerFileAt (files.map (fun f => getFileDataMap f candidate)) k).map
        (fun arr => (arr.headD none).isSome)).headD false)) = true) := by
    rintro ⟨h, -⟩
    rcases hjt with rfl | rfl <;> exact absurd h (by decide)
  rw [if_neg h1, if_neg h2]
  rw [List.length_map, cartesian_eq_specCartesian, specCartesian_length,
    rowsPerFileAt_lengths files candidate k hk]
  rfl

/-- Length of the per-key output in the INNER mode. -/
theorem recordsForKey_length_inner (files : List ParsedFile)
    (candidate : JoinCandidate) (k : String) (hk : k ≠ "") :
    (recordsForKey files candidate JoinType.INNER
      (files.map (fun f => getFileDataMap f candidate)) k).length =
      innerTermOf files candidate k := by
  unfold recordsForKey
  by_cases hany : ((rowsPerFileAt (files.map (fun f => getFileDataMap f candidate)) k).map
      (fun arr => (arr.headD none).isSome)).any (fun h => !h) = true
  · rw [if_pos ⟨rfl, hany⟩]
    rw [rowsPerFileAt_hasData files candidate k hk] at hany
    rw [List.any_eq_true] at hany
    obtain ⟨b, hb, hbtrue⟩ := hany
    obtain ⟨f, hf, rfl⟩ := List.mem_map.mp hb
    have hempty : (fileGroup f candidate k).isEmpty := by
      cases he : (fileGroup f candidate k).isEmpty
      · rw [he] at hbtrue; simp at hbtrue
      · rfl
    have : (0 : Nat) ∈ statKeyCounts files candidate k := by
      unfold statKeyCounts
      apply List.mem_map.mpr
      refine ⟨f, hf, ?_⟩
      rw [countGetD_eq_groupLength f candidate k hk]
      rw [List.isEmpty_iff] at hempty
      rw [hempty]
      rfl
    unfold innerTermOf
    simp only [List.length_nil]
    rw [eq_comm, List.prod_eq_zero_iff]
    exact this
  · rw [if_neg (fun h => hany h.2), if_neg (fun h => by cases h.1)]
    rw [List.length_map, cartesian_eq_specCartesian, specCartesian_length,
      rowsPerFileAt_lengths files candidate k hk]
    unfold innerTermOf
    congr 1
    have hall : ∀ c ∈ statKeyCounts files candidate k, c ≠ 0 := by
      intro c hc hc0
      obtain ⟨f, hf, rfl⟩ := List.mem_map.mp hc
      apply hany
      rw [rowsPerFileAt_hasData files candidate k hk, List.any_eq_true]
      refine ⟨!(fileGroup f candidate k).isEmpty, List.mem_map.mpr ⟨f, hf, rfl⟩, ?_⟩
      rw [countGetD_eq_groupLength f candidate k hk] at hc0
      have : fileGroup f candidate k = [] := List.length_eq_zero.mp hc0
      rw [this]
      rfl
    calc (statKeyCounts files candidate k).map (fun c => if c = 0 then 1 else c)
        = (statKeyCounts files candidate k).map (fun c => c) := by
          apply List.map_congr_left
          intro c hc
          rw [if_neg (hall c hc)]
      _ = statKeyCounts files candidate k := List.map_id _

/-- Length of the per-key output in the LEFT mode. -/
theorem recordsForKey_length_left (files : List ParsedFile)
    (candidate : JoinCandidate) (k : String) (hk : k ≠ "") :
    (recordsForKey files candidate JoinType.LEFT
      (files.map (fun f => getFileDataMap f candidate)) k).length =
      leftTermOf files candidate k := by
  unfold recordsForKey
  rw [if_neg (fun h => by cases h.1)]
  cases files with
  | nil =>
      rw [if_pos ⟨rfl, by rfl⟩]
      rfl
  | cons f0 rest =>
      have hhead : ((rowsPerFileAt ((f0 :: rest).map (fun f => getFileDataMap f candidate)) k).map
          (fun arr => (arr.headD none).isSome)).headD false =
          !(fileGroup f0 candidate k).isEmpty := by
        rw [rowsPerFileAt_hasData (f0 :: rest) candidate k hk]
        rfl
      have hc0 : (statKeyCounts (f0 :: rest) candidate k).headD 0 =
          (fileGroup f0 candidate k).length := by
        unfold statKeyCounts
        rw [List.map_cons]
        exact countGetD_eq_groupLength f0 candidate k hk
      by_cases h0 : (fileGroup f0 candidate k).isEmpty
      · rw [if_pos ⟨rfl, by rw [hhead, h0]; rfl⟩]
        unfold leftTermOf
        rw [hc0, List.isEmpty_iff.mp h0]
        rfl
      · have h0' : (!(fileGroup f0 candidate k).isEmpty) = true := by
          cases he : (fileGroup f0 candidate k).isEmpty
          · rfl
          · exact absurd he h0
        rw [if_neg (fun h => by rw [hhead, h0'] at h; exact Bool.noConfusion h.2)]
        rw [List.length_map, cartesian_eq_specCartesian, specCartesian_length,
          rowsPerFileAt_lengths (f0 :: rest) candidate k hk]
        unfold leftTermOf
        have hc0pos : (statKeyCounts (f0 :: rest) candidate k).headD 0 > 0 := by
          rw [hc0]
          cases hg : fileGroup f0 candidate k with
          | nil => rw [List.isEmpty_iff] at h0; exact absurd hg h0
          | cons g gs => simp
        rw [if_pos hc0pos]
        unfold statKeyCounts
        rw [List.map_cons, List.map_cons, List.prod_cons]
        have hc0ne : ((mapGet (getKeyCountsFromFile f0 candidate) k).getD 0) ≠ 0 := by
          rw [countGetD_eq_groupLength f0 candidate k hk]
          intro hlen
          rw [List.isEmpty_iff] at h0
          exact h0 (List.length_eq_zero.mp hlen)
        rw [if_neg hc0ne]
        rfl

/-- The key unions computed by the estimator and the executor coincide. -/
theorem allKeys_counts_eq_allKeys_groups (files : List ParsedFile)
    (candidate : JoinCandidate) :
    allKeysFrom (files.map (fun f => getKeyCountsFromFile f candidate)) =
      allKeysFrom (files.map (fun f => getFileDataMap f candidate)) := by
  apply allKeysFrom_congr
  rw [List.map_map, List.map_map]
  apply List.map_congr_left
  intro f _
  exact mapKeys_counts_eq_groups f candidate

/-- C1 — For every list of datasets and every join candidate, the estimate
returned by `calculateJoinStats` for each of INNER, OUTER, LEFT and
ADDITIVE equals the number of records returned by `joinDatasets` for
that join type. -/
theorem calculateJoinStats_agrees_with_joinDatasets
    (files : List ParsedFile) (candidate : JoinCandidate) :
    (calculateJoinStats files candidate).INNER =
        (joinDatasets files candidate JoinType.INNER).length ∧
      (calculateJoinStats files candidate).OUTER =
        (joinDatasets files candidate JoinType.OUTER).length ∧
      (calculateJoinStats files candidate).LEFT =
        (joinDatasets files candidate JoinType.LEFT).length ∧
      (calculateJoinStats files candidate).ADDITIVE =
        (joinDatasets files candidate JoinType.ADDITIVE).length := by
  by_cases hne : files = []
  · subst hne
    exact ⟨rfl, rfl, rfl, rfl⟩
  · rw [calculateJoinStats_characterization files candidate hne]
    have hlen : ∀ (jt : JoinType),
        (joinDatasets files candidate jt).length =
          ((allKeysFrom (files.map (fun f => getFileDataMap f candidate))).map
            (fun k => (recordsForKey files candidate jt
              (files.map (fun f => getFileDataMap f candidate)) k).length)).sum := by
      intro jt
      rw [joinDatasets_eq_flatMap, List.length_flatMap]
      congr 1
    refine ⟨?_, ?_, ?_, ?_⟩ <;>
      rw [hlen, allKeys_counts_eq_allKeys_groups files candidate] <;>
        (try simp only []) <;> congr 1 <;> apply List.map_congr_left <;>
          intro k hkmem
    · exact recordsForKey_length_inner files candidate k
        (mem_allKeys_ne_sentinel files candidate k hkmem) |>.symm
    · exact recordsForKey_length_outer files candidate k
        (mem_allKeys_ne_sentinel files candidate k hkmem) JoinType.OUTER
        (Or.inl rfl) |>.symm
    · exact recordsForKey_length_left files candidate k
        (mem_allKeys_ne_sentinel files candidate k hkmem) |>.symm
    · exact recordsForKey_length_outer files candidate k
        (mem_allKeys_ne_sentinel files candidate k hkmem) JoinType.ADDITIVE
        (Or.inr rfl) |>.symm

/-! ### The stats formula (C2) -/

theorem ifzero_eq_max (c : Nat) : (if c = 0 then 1 else c) = max c 1 := by
  by_cases hc : c = 0
  · subst hc; decide
  · rw [if_neg hc]; omega

theorem calcStats_INNER_eq (files : List ParsedFile) (candidate : JoinCandidate)
    (hne : files ≠ []) :
    (calculateJoinStats files candidate).INNER =
      ((allKeysFrom (files.map (fun f => getKeyCountsFromFile f candidate))).map
        (innerTermOf files candidate)).sum := by
  rw [calculateJoinStats_characterization files candidate hne]

theorem calcStats_OUTER_eq (files : List ParsedFile) (candidate : JoinCandidate)
    (hne : files ≠ []) :
    (calculateJoinStats files candidate).OUTER =
      ((allKeysFrom (files.map (fun f => getKeyCountsFromFile f candidate))).map
        (outerTermOf files candidate)).sum := by
  rw [calculateJoinStats_characterization files candidate hne]

theorem calcStats_LEFT_eq (files : List ParsedFile) (candidate : JoinCandidate)
    (hne : files ≠ []) :
    (calculateJoinStats files candidate).LEFT =
      ((allKeysFrom (files.map (fun f => getKeyCountsFromFile f candidate))).map
        (leftTermOf files candidate)).sum := by
  rw [calculateJoinStats_characterization files candidate hne]

theorem calcStats_ADDITIVE_eq (files : List ParsedFile)
    (candidate : JoinCandidate) (hne : files ≠ []) :
    (calculateJoinStats files candidate).ADDITIVE =
      ((allKeysFrom (files.map (fun f => getKeyCountsFromFile f candidate))).map
        (outerTermOf files candidate)).sum := by
  rw [calculateJoinStats_characterization files candidate hne]

/-- Dataset A of the §8 scenario: customers with keys 101…105, once each. -/
def customersFile : ParsedFile :=
  { name := "customers.csv",
    data := [[("CustomerID", Value.vNum 101), ("Name", Value.vStr "Alice")],
             [("CustomerID", Value.vNum 102), ("Name", Value.vStr "Bob")],
             [("CustomerID", Value.vNum 103), ("Name", Value.vStr "Cora")],
             [("CustomerID", Value.vNum 104), ("Name", Value.vStr "Dan")],
             [("CustomerID", Value.vNum 105), ("Name", Value.vStr "Eve")]] }

/-- Dataset B of the §8 scenario: orders with keys 101×2, 102, 103×2, 999. -/
def ordersFile : ParsedFile :=
  { name := "orders.csv",
    data := [[("Cust_Ref_ID", Value.vNum 101), ("Item", Value.vStr "pen")],
             [("Cust_Ref_ID", Value.vNum 101), ("Item", Value.vStr "ink")],
             [("Cust_Ref_ID", Value.vNum 102), ("Item", Value.vStr "pad")],
             [("Cust_Ref_ID", Value.vNum 103), ("Item", Value.vStr "cup")],
             [("Cust_Ref_ID", Value.vNum 103), ("Item", Value.vStr "jar")],
             [("Cust_Ref_ID", Value.vNum 999), ("Item", Value.vStr "box")]] }

/-- The §8 candidate: key `CustomerID`, mapped per file. -/
def sectionEightCandidate : JoinCandidate :=
  { keyName := "CustomerID",
    columnMappings := [⟨"customers.csv", "CustomerID"⟩,
                       ⟨"orders.csv", "Cust_Ref_ID"⟩] }

/-- C2 — `calculateJoinStats` computes, over the union of normalized
non-empty keys, INNER as the sum of products of per-dataset counts,
OUTER = ADDITIVE as the sum of products of `max(count, 1)`, LEFT as the
sum over keys present in dataset 0 of `count₀ · Π_{i>0} max(countᵢ, 1)`
(counts being the per-dataset group sizes); on the §8 scenario it
returns INNER 5, LEFT 7, OUTER = ADDITIVE = 8. -/
theorem calculateJoinStats_formula :
    (∀ (files : List ParsedFile) (candidate : JoinCandidate), files ≠ [] →
      (calculateJoinStats files candidate).INNER =
          ((allKeysFrom (files.map (fun f => getKeyCountsFromFile f candidate))).map
            (fun k => (files.map (fun f => (fileGroup f candidate k).length)).prod)).sum ∧
        (calculateJoinStats files candidate).OUTER =
          ((allKeysFrom (files.map (fun f => getKeyCountsFromFile f candidate))).map
            (fun k => (files.map
              (fun f => max (fileGroup f candidate k).length 1)).prod)).sum ∧
        (calculateJoinStats files candidate).LEFT =
          ((allKeysFrom (files.map (fun f => getKeyCountsFromFile f candidate))).map
            (fun k =>
              if (files.map (fun f => (fileGroup f candidate k).length)).headD 0 > 0 then
                (files.map (fun f => (fileGroup f candidate k).length)).headD 0 *
                  (((files.map (fun f => (fileGroup f candidate k).length)).drop 1).map
                    (fun c => max c 1)).prod
              else 0)).sum ∧
        (calculateJoinStats files candidate).ADDITIVE =
          (calculateJoinStats files candidate).OUTER) ∧
      (calculateJoinStats [customersFile, ordersFile] sectionEightCandidate).INNER = 5 ∧
      (calculateJoinStats [customersFile, ordersFile] sectionEightCandidate).LEFT = 7 ∧
      (calculateJoinStats [customersFile, ordersFile] sectionEightCandidate).OUTER = 8 ∧
      (calculateJoinStats [customersFile, ordersFile] sectionEightCandidate).ADDITIVE = 8 := by
  refine ⟨?_, by decide, by decide, by decide, by decide⟩
  intro files candidate hne
  have hkeymem : ∀ k, k ∈ allKeysFrom
      (files.map (fun f => getKeyCountsFromFile f candidate)) → k ≠ "" := by
    intro k hk
    rw [allKeys_counts_eq_allKeys_groups files candidate] at hk
    exact mem_allKeys_ne_sentinel files candidate k hk
  have hcounts : ∀ k, k ≠ "" → statKeyCounts files candidate k =
      files.map (fun f => (fileGroup f candidate k).length) := by
    intro k hk
    unfold statKeyCounts
    apply List.map_congr_left
    intro f _
    exact countGetD_eq_groupLength f candidate k hk
  refine ⟨?_, ?_, ?_, ?_⟩
  · rw [calcStats_INNER_eq files candidate hne]
    congr 1
    apply List.map_congr_left
    intro k hk
    unfold innerTermOf
    rw [hcounts k (hkeymem k hk)]
  · rw [calcStats_OUTER_eq files candidate hne]
    congr 1
    apply List.map_congr_left
    intro k hk
    unfold outerTermOf
    rw [hcounts k (hkeymem k hk), List.map_map]
    congr 1
    apply List.map_congr_left
    intro f _
    simp only [Function.comp_def]
    exact ifzero_eq_max _
  · rw [calcStats_LEFT_eq files candidate hne]
    congr 1
    apply List.map_congr_left
    intro k hk
    unfold leftTermOf
    rw [hcounts k (hkeymem k hk)]
    by_cases hpos :
        (files.map (fun f => (fileGroup f candidate k).length)).headD 0 > 0
    · rw [if_pos hpos, if_pos hpos]
      congr 1
      congr 1
      apply List.map_congr_left
      intro c _
      exact ifzero_eq_max c
    · rw [if_neg hpos, if_neg hpos]
  · rw [calcStats_ADDITIVE_eq files candidate hne,
      calcStats_OUTER_eq files candidate hne]

/-! ### Decomposition of join output records -/

theorem zip_get? {α β : Type} :
    ∀ (l1 : List α) (l2 : List β) (i : Nat),
    (l1.zip l2).get? i =
      match l1.get? i, l2.get? i with
      | some a, some b => some (a, b)
      | _, _ => none := by
  intro l1
  induction l1 with
  | nil => intro l2 i; cases l2 <;> cases i <;> rfl
  | cons a l1 ih =>
      intro l2 i
      cases l2 with
      | nil =>
          cases i with
          | zero => rfl
          | succ n => cases h : (a :: l1).get? (n + 1) <;> rfl
      | cons b l2 =>
          cases i with
          | zero => rfl
          | succ i => simpa using ih l2 i

/-- Every record of `joinDatasets` is built from a key of the key union
and a combination drawn from the cartesian product for that key. -/
theorem mem_joinDatasets_decomp (files : List ParsedFile)
    (candidate : JoinCandidate) (joinType : JoinType) (rec : Row)
    (hrec : rec ∈ joinDatasets files candidate joinType) :
    ∃ k combo,
      k ∈ allKeysFrom (files.map (fun f => getFileDataMap f candidate)) ∧
      combo ∈ cartesian
        (rowsPerFileAt (files.map (fun f => getFileDataMap f candidate)) k) ∧
      rec = buildJoinedRow files candidate joinType k combo := by
  rw [joinDatasets_eq_flatMap] at hrec
  rw [List.mem_flatMap] at hrec
  obtain ⟨k, hk, hrec⟩ := hrec
  refine ⟨k, ?_⟩
  simp only [recordsForKey] at hrec
  split at hrec
  · simp at hrec
  · split at hrec
    · simp at hrec
    · rw [List.mem_map] at hrec
      obtain ⟨combo, hcombo, heq⟩ := hrec
      exact ⟨combo, hk, hcombo, heq.symm⟩

/-- Positional description of a combination: its length is the number of
files, and each non-null entry is a row of the corresponding file's
group for the key. -/
theorem combo_rows_mem (files : List ParsedFile) (candidate : JoinCandidate)
    (k : String) (combo : List (Option Row))
    (hcombo : combo ∈ cartesian
      (rowsPerFileAt (files.map (fun f => getFileDataMap f candidate)) k)) :
    combo.length = files.length ∧
      ∀ i or, combo.get? i = some or → ∀ row, or = some row →
        ∃ f, files.get? i = some f ∧
          row ∈ (mapGet (getFileDataMap f candidate) k).getD [] := by
  rw [cartesian_eq_specCartesian] at hcombo
  obtain ⟨hlen, hidx⟩ := mem_specCartesian _ _ hcombo
  have hlen' : combo.length = files.length := by
    rw [hlen]
    unfold rowsPerFileAt
    rw [List.length_map, List.length_map]
  refine ⟨hlen', ?_⟩
  intro i or hor row hrow
  have hi : i < files.length := by
    obtain ⟨h, -⟩ := List.get?_eq_some.mp hor
    omega
  obtain ⟨f, hf⟩ : ∃ f, files.get? i = some f := by
    cases hgf : files.get? i with
    | none => rw [List.get?_eq_none] at hgf; omega
    | some f => exact ⟨f, rfl⟩
  refine ⟨f, hf, ?_⟩
  have hb : (rowsPerFileAt (files.map (fun f => getFileDataMap f candidate)) k).get? i =
      some (match mapGet (getFileDataMap f candidate) k with
        | some rows => if rows.length > 0 then rows.map some else [none]
        | none => [none]) := by
    unfold rowsPerFileAt
    rw [List.get?_map, List.get?_map, hf]
    rfl
  have hmem := hidx i or _ hor hb
  subst hrow
  cases hget : mapGet (getFileDataMap f candidate) k with
  | none =>
      rw [hget] at hmem
      simp at hmem
  | some rows =>
      rw [hget] at hmem
      cases rows with
      | nil => simp at hmem
      | cons r rs =>
          simp only [List.length_cons, Nat.zero_lt_succ, if_pos] at hmem
          have : some row ∈ (r :: rs).map some := by
            simpa using hmem
          rw [List.mem_map] at this
          obtain ⟨r', hr', heq⟩ := this
          cases heq
          simpa using hr'

/-- C5 — A row whose raw key value normalizes to the empty string is
placed in no key group, counted by no estimate entry, keyed by no
key of the union, and every output record is built only from rows
drawn from the (empty-key-free) key groups. -/
theorem empty_key_rows_excluded (files : List ParsedFile)
    (candidate : JoinCandidate) (joinType : JoinType) (f : ParsedFile)
    (kc : String) (row : Row)
    (hkc : getKeyColumnForFile f candidate = some kc)
    (hempty : normalizeKey (mapGet row kc) = "") :
    (∀ k rows, mapGet (getFileDataMap f candidate) k = some rows →
      row ∉ rows) ∧
    (∀ k n, mapGet (getKeyCountsFromFile f candidate) k = some n → k ≠ "") ∧
    ("" ∉ allKeysFrom (files.map (fun g => getFileDataMap g candidate))) ∧
    (∀ rec ∈ joinDatasets files candidate joinType, ∃ k combo,
      k ≠ "" ∧
      rec = buildJoinedRow files candidate joinType k combo ∧
      ∀ i or, combo.get? i = some or → ∀ r, or = some r →
        ∃ g, files.get? i = some g ∧
          r ∈ (mapGet (getFileDataMap g candidate) k).getD []) := by
  refine ⟨?_, ?_, ?_, ?_⟩
  · intro k rows hm hrow
    by_cases hk : k = ""
    · subst hk
      rw [getFileDataMap_get_sentinel] at hm
      exact Option.noConfusion hm
    · rw [getFileDataMap_get f candidate k hk] at hm
      have hrows : rows = fileGroup f candidate k := by
        cases hfil : fileGroup f candidate k with
        | nil => rw [hfil] at hm; simp at hm
        | cons g gs => rw [hfil] at hm; simp at hm; exact hm.symm
      subst hrows
      have hfg : fileGroup f candidate k =
          f.data.filter (fun r => normalizeKey (mapGet r kc) == k) := by
        unfold fileGroup; rw [hkc]
      rw [hfg] at hrow
      rw [List.mem_filter] at hrow
      have : normalizeKey (mapGet row kc) = k := by
        have := hrow.2
        simpa using this
      rw [hempty] at this
      exact hk this.symm
  · intro k n hm hk
    subst hk
    rw [getKeyCountsFromFile_get_sentinel] at hm
    exact Option.noConfusion hm
  · intro hmem
    exact mem_allKeys_ne_sentinel files candidate "" hmem rfl
  · intro rec hrec
    obtain ⟨k, combo, hkmem, hcombo, heq⟩ :=
      mem_joinDatasets_decomp files candidate joinType rec hrec
    obtain ⟨-, hpos⟩ := combo_rows_mem files candidate k combo hcombo
    exact ⟨k, combo, mem_allKeys_ne_sentinel files candidate k hkmem, heq, hpos⟩

/-- The file of the C5 witness: one whitespace-keyed row, one normal row. -/
def whitespaceFile : ParsedFile :=
  { name := "w.csv",
    data := [[("k", Value.vStr " ")], [("k", Value.vStr "1")]] }

/-- The candidate of the C5 witness. -/
def whitespaceCandidate : JoinCandidate :=
  { keyName := "K", columnMappings := [⟨"w.csv", "k"⟩] }

/-- Witness for C5 at a concrete whitespace-keyed row. -/
theorem empty_key_rows_excluded_witness :
    getKeyColumnForFile whitespaceFile whitespaceCandidate = some "k" ∧
    normalizeKey (mapGet [(("k" : String), Value.vStr " ")] "k") = "" ∧
    ((∀ k rows, mapGet (getFileDataMap whitespaceFile whitespaceCandidate) k =
        some rows → [(("k" : String), Value.vStr " ")] ∉ rows) ∧
     (∀ k n, mapGet (getKeyCountsFromFile whitespaceFile whitespaceCandidate) k =
        some n → k ≠ "") ∧
     ("" ∉ allKeysFrom ([whitespaceFile].map
        (fun g => getFileDataMap g whitespaceCandidate))) ∧
     (∀ rec ∈ joinDatasets [whitespaceFile] whitespaceCandidate JoinType.OUTER,
        ∃ k combo, k ≠ "" ∧
          rec = buildJoinedRow [whitespaceFile] whitespaceCandidate
            JoinType.OUTER k combo ∧
          ∀ i or, combo.get? i = some or → ∀ r, or = some r →
            ∃ g, [whitespaceFile].get? i = some g ∧
              r ∈ (mapGet (getFileDataMap g whitespaceCandidate) k).getD [])) :=
  ⟨rfl, rfl,
    empty_key_rows_excluded [whitespaceFile] whitespaceCandidate JoinType.OUTER
      whitespaceFile "k" [("k", Value.vStr " ")] rfl rfl⟩

/-- Witness for C2 at a concrete single-file instance. -/
theorem calculateJoinStats_formula_witness :
    ([whitespaceFile] ≠ ([] : List ParsedFile)) ∧
    ((calculateJoinStats [whitespaceFile] whitespaceCandidate).INNER =
        ((allKeysFrom ([whitespaceFile].map
          (fun f => getKeyCountsFromFile f whitespaceCandidate))).map
          (fun k => ([whitespaceFile].map
            (fun f => (fileGroup f whitespaceCandidate k).length)).prod)).sum ∧
      (calculateJoinStats [whitespaceFile] whitespaceCandidate).OUTER =
        ((allKeysFrom ([whitespaceFile].map
          (fun f => getKeyCountsFromFile f whitespaceCandidate))).map
          (fun k => ([whitespaceFile].map
            (fun f => max (fileGroup f whitespaceCandidate k).length 1)).prod)).sum ∧
      (calculateJoinStats [whitespaceFile] whitespaceCandidate).LEFT =
        ((allKeysFrom ([whitespaceFile].map
          (fun f => getKeyCountsFromFile f whitespaceCandidate))).map
          (fun k =>
            if ([whitespaceFile].map
                (fun f => (fileGroup f whitespaceCandidate k).length)).headD 0 > 0 then
              ([whitespaceFile].map
                (fun f => (fileGroup f whitespaceCandidate k).length)).headD 0 *
                ((([whitespaceFile].map
                  (fun f => (fileGroup f whitespaceCandidate k).length)).drop 1).map
                  (fun c => max c 1)).prod
            else 0)).sum ∧
      (calculateJoinStats [whitespaceFile] whitespaceCandidate).ADDITIVE =
        (calculateJoinStats [whitespaceFile] whitespaceCandidate).OUTER) :=
  ⟨List.cons_ne_nil _ _,
    calculateJoinStats_formula.1 [whitespaceFile] whitespaceCandidate
      (List.cons_ne_nil _ _)⟩

/-! ### The ordering refinement (C7) -/

theorem dedup_foldl_setAdd :
    ∀ (l : List String) (seen s : List String), (∀ x ∈ seen, x ∈ s) →
    (dedupFirstAux seen l).foldl setAdd s = l.foldl setAdd s := by
  intro l
  induction l with
  | nil => intro seen s _; rfl
  | cons x xs ih =>
      intro seen s hsub
      simp only [dedupFirstAux]
      by_cases hx : x ∈ seen
      · rw [if_pos hx, List.foldl_cons,
          show setAdd s x = s from if_pos (hsub x hx)]
        exact ih seen s hsub
      · rw [if_neg hx, List.foldl_cons, List.foldl_cons]
        apply ih
        intro y hy
        rw [mem_setAdd]
        rcases List.mem_append.mp hy with hys | hyx
        · exact Or.inl (hsub y hys)
        · rw [List.mem_singleton] at hyx
          exact Or.inr hyx

/-- The key list of a per-file rows map as a plain `setAdd` fold. -/
theorem mapKeys_getFileDataMap_foldl (f : ParsedFile)
    (candidate : JoinCandidate) :
    mapKeys (getFileDataMap f candidate) =
      (fileKeyList f candidate).foldl setAdd [] := by
  rw [mapKeys_getFileDataMap, dedupFirst, foldl_setAdd_eq_dedup]
  rfl

/-- Spec-side key order: first-occurrence deduplication of the files'
normalized non-empty key sequences, scanned in dataset order. -/
def specKeyOrder (files : List ParsedFile) (candidate : JoinCandidate) :
    List String :=
  dedupFirst (files.flatMap (fun f => fileKeyList f candidate))

/-- The executor's key union visits keys in first-encountered order. -/
theorem allKeys_eq_specKeyOrder (files : List ParsedFile)
    (candidate : JoinCandidate) :
    allKeysFrom (files.map (fun f => getFileDataMap f candidate)) =
      specKeyOrder files candidate := by
  unfold specKeyOrder dedupFirst
  rw [show dedupFirstAux [] (files.flatMap fun f => fileKeyList f candidate) =
      (files.flatMap fun f => fileKeyList f candidate).foldl setAdd [] from by
    rw [foldl_setAdd_eq_dedup]; rfl]
  unfold allKeysFrom
  suffices haux : ∀ (fs : List ParsedFile) (s : List String),
      (fs.map (fun f => getFileDataMap f candidate)).foldl
        (fun s m => (mapKeys m).foldl setAdd s) s =
      (fs.flatMap (fun f => fileKeyList f candidate)).foldl setAdd s from
    haux files []
  intro fs
  induction fs with
  | nil => intro s; rfl
  | cons f fs ih =>
      intro s
      simp only [List.map_cons, List.foldl_cons, List.flatMap_cons,
        List.foldl_append]
      rw [mapKeys_getFileDataMap_foldl f candidate]
      rw [show (fileKeyList f candidate).foldl setAdd [] =
          dedupFirstAux [] (fileKeyList f candidate) from by
        rw [foldl_setAdd_eq_dedup]; rfl]
      rw [dedup_foldl_setAdd _ [] s (by intro x hx; cases hx)]
      exact ih _

/-- Spec-side per-key row groups: the file's group (an order-preserving
filter of its rows) or a single null placeholder. -/
def rowsPerFileSpec (files : List ParsedFile) (candidate : JoinCandidate)
    (k : String) : List (List (Option Row)) :=
  files.map (fun f =>
    if (fileGroup f candidate k).isEmpty then [(none : Option Row)]
    else (fileGroup f candidate k).map some)

/-- Spec-side per-key records: filter per join type, then the
nested-iteration cartesian product, in order. -/
def specRecordsForKey (files : List ParsedFile) (candidate : JoinCandidate)
    (joinType : JoinType) (k : String) : List Row :=
  let rowsPerFile := rowsPerFileSpec files candidate k
  let hasDataInFile := files.map (fun f => !(fileGroup f candidate k).isEmpty)
  if joinType = JoinType.INNER ∧ hasDataInFile.any (fun h => !h) then []
  else if joinType = JoinType.LEFT ∧ !(hasDataInFile.headD false) then []
  else (specCartesian rowsPerFile).map (buildJoinedRow files candidate joinType k)

/-- Spec-side join: keys in first-encountered order, records grouped by
key. -/
def specJoin (files : List ParsedFile) (candidate : JoinCandidate)
    (joinType : JoinType) : List Row :=
  (specKeyOrder files candidate).flatMap
    (specRecordsForKey files candidate joinType)

theorem rowsPerFileSpec_hasData (files : List ParsedFile)
    (candidate : JoinCandidate) (k : String) :
    (rowsPerFileSpec files candidate k).map
        (fun arr => (arr.headD none).isSome) =
      files.map (fun f => !(fileGroup f candidate k).isEmpty) := by
  unfold rowsPerFileSpec
  rw [List.map_map]
  apply List.map_congr_left
  intro f _
  simp only [Function.comp_def]
  cases hfil : fileGroup f candidate k with
  | nil => simp
  | cons g gs => simp

theorem rowsPerFileAt_eq_spec (files : List ParsedFile)
    (candidate : JoinCandidate) (k : String) (hk : k ≠ "") :
    rowsPerFileAt (files.map (fun f => getFileDataMap f candidate)) k =
      rowsPerFileSpec files candidate k := by
  rw [rowsPerFileAt_eq files candidate k hk]
  rfl

/-- C7 — `joinDatasets` emits records grouped by key with keys in
first-encountered order, combinations per key in nested-iteration
cartesian order (dataset 0 slowest), and each key group is an
order-preserving filter of the dataset's original rows. -/
theorem joinDatasets_ordering :
    (∀ (files : List ParsedFile) (candidate : JoinCandidate) (jt : JoinType),
      joinDatasets files candidate jt = specJoin files candidate jt) ∧
    (∀ (ls : List (List (Option Row))), cartesian ls = specCartesian ls) ∧
    (∀ (f : ParsedFile) (candidate : JoinCandidate) (k : String) (rows : List Row),
      mapGet (getFileDataMap f candidate) k = some rows →
      ∃ kc, getKeyColumnForFile f candidate = some kc ∧
        rows = f.data.filter (fun r => normalizeKey (mapGet r kc) == k)) := by
  refine ⟨?_, fun ls => cartesian_eq_specCartesian ls, ?_⟩
  · intro files candidate jt
    rw [joinDatasets_eq_flatMap]
    unfold specJoin
    rw [← allKeys_eq_specKeyOrder]
    apply List.flatMap_congr
    intro k hk
    have hkne := mem_allKeys_ne_sentinel files candidate k hk
    unfold recordsForKey specRecordsForKey
    simp only []
    rw [rowsPerFileAt_eq_spec files candidate k hkne,
      rowsPerFileSpec_hasData files candidate k,
      cartesian_eq_specCartesian]
  · intro f candidate k rows hm
    have hkne : k ≠ "" := by
      intro hk
      subst hk
      rw [getFileDataMap_get_sentinel] at hm
      exact Option.noConfusion hm
    cases hkc : getKeyColumnForFile f candidate with
    | none =>
        rw [show getFileDataMap f candidate = [] from by
          unfold getFileDataMap; rw [hkc]] at hm
        exact Option.noConfusion hm
    | some kc =>
        refine ⟨kc, rfl, ?_⟩
        rw [getFileDataMap_get f candidate k hkne] at hm
        have hrows : rows = fileGroup f candidate k := by
          cases hfil : fileGroup f candidate k with
          | nil => rw [hfil] at hm; simp at hm
          | cons g gs => rw [hfil] at hm; simp at hm; exact hm.symm
        rw [hrows]
        unfold fileGroup
        rw [hkc]

/-- Witness for C7's group-description conjunct at a concrete input. -/
theorem joinDatasets_ordering_witness :
    mapGet (getFileDataMap whitespaceFile whitespaceCandidate) "1" =
      some [[(("k" : String), Value.vStr "1")]] ∧
    (∃ kc, getKeyColumnForFile whitespaceFile whitespaceCandidate = some kc ∧
      [[(("k" : String), Value.vStr "1")]] =
        whitespaceFile.data.filter
          (fun r => normalizeKey (mapGet r kc) == "1")) :=
  ⟨rfl, joinDatasets_ordering.2.2 whitespaceFile whitespaceCandidate "1"
    [[("k", Value.vStr "1")]] rfl⟩

/-! ### Missing column mapping (C8) -/

theorem allKeysFrom_append_emptyMap {α : Type}
    (ms : List (List (String × α))) :
    allKeysFrom (ms ++ [([] : List (String × α))]) = allKeysFrom ms := by
  unfold allKeysFrom
  rw [List.foldl_append]
  rfl

theorem flatMap_eq_nil_of {α β : Type} (l : List α) (g : α → List β)
    (h : ∀ x ∈ l, g x = []) : l.flatMap g = [] := by
  induction l with
  | nil => rfl
  | cons a l ih =>
      rw [List.flatMap_cons, h a (List.mem_cons_self a l), List.nil_append]
      exact ih (fun x hx => h x (List.mem_cons_of_mem a hx))

/-- C8 — A dataset with no column mapping indexes to empty maps, leaves
the OUTER/ADDITIVE/LEFT estimates unchanged (a virtual factor of 1),
occupies a null position in every combination, and empties the INNER
output; no error is possible (all modelled functions are total). -/
theorem unmapped_dataset_degrades (files : List ParsedFile)
    (candidate : JoinCandidate) (f : ParsedFile)
    (hkc : getKeyColumnForFile f candidate = none) :
    getKeyCountsFromFile f candidate = [] ∧
    getFileDataMap f candidate = [] ∧
    (calculateJoinStats (files ++ [f]) candidate).OUTER =
      (calculateJoinStats files candidate).OUTER ∧
    (calculateJoinStats (files ++ [f]) candidate).ADDITIVE =
      (calculateJoinStats files candidate).ADDITIVE ∧
    (calculateJoinStats (files ++ [f]) candidate).LEFT =
      (calculateJoinStats files candidate).LEFT ∧
    joinDatasets (files ++ [f]) candidate JoinType.INNER = [] ∧
    (∀ k combo, combo ∈ cartesian
        (rowsPerFileAt ((files ++ [f]).map
          (fun g => getFileDataMap g candidate)) k) →
      combo.get? files.length = some none) := by
  have hcount : getKeyCountsFromFile f candidate = [] := by
    unfold getKeyCountsFromFile; rw [hkc]
  have hdata : getFileDataMap f candidate = [] := by
    unfold getFileDataMap; rw [hkc]
  have hgroup : ∀ k, fileGroup f candidate k = [] := by
    intro k; unfold fileGroup; rw [hkc]
  have hmaps : (files ++ [f]).map (fun g => getKeyCountsFromFile g candidate) =
      files.map (fun g => getKeyCountsFromFile g candidate) ++ [[]] := by
    rw [List.map_append, List.map_cons, List.map_nil, hcount]
  have hkeys : allKeysFrom ((files ++ [f]).map
      (fun g => getKeyCountsFromFile g candidate)) =
      allKeysFrom (files.map (fun g => getKeyCountsFromFile g candidate)) := by
    rw [hmaps, allKeysFrom_append_emptyMap]
  have hcounts : ∀ k, statKeyCounts (files ++ [f]) candidate k =
      statKeyCounts files candidate k ++ [0] := by
    intro k
    unfold statKeyCounts
    rw [List.map_append, List.map_cons, List.map_nil, hcount]
    rfl
  have houter : ∀ k, outerTermOf (files ++ [f]) candidate k =
      outerTermOf files candidate k := by
    intro k
    unfold outerTermOf
    rw [hcounts k, List.map_append, List.prod_append]
    simp
  have hleft : ∀ k, leftTermOf (files ++ [f]) candidate k =
      leftTermOf files candidate k := by
    intro k
    unfold leftTermOf
    rw [hcounts k]
    cases hcs : statKeyCounts files candidate k with
    | nil => simp
    | cons c cs =>
        have h1 : ((c :: cs) ++ [0]).headD 0 = (c :: cs).headD 0 := rfl
        have h2 : (((c :: cs) ++ [0]).drop 1).map
            (fun c => if c = 0 then 1 else c) =
            (cs.map (fun c => if c = 0 then 1 else c)) ++ [1] := by
          simp
        rw [h1, h2, List.prod_append]
        simp
  refine ⟨hcount, hdata, ?_, ?_, ?_, ?_, ?_⟩
  · by_cases hne : files = []
    · subst hne
      rw [show calculateJoinStats ([] ++ [f]) candidate =
          calculateJoinStats [f] candidate from rfl]
      rw [calcStats_OUTER_eq [f] candidate (List.cons_ne_nil _ _)]
      rw [show [f].map (fun g => getKeyCountsFromFile g candidate) = [[]] from by
        rw [List.map_cons, List.map_nil, hcount]]
      rfl
    · rw [calcStats_OUTER_eq (files ++ [f]) candidate (by simp),
        calcStats_OUTER_eq files candidate hne, hkeys]
      congr 1
      exact List.map_congr_left (fun k _ => houter k)
  · by_cases hne : files = []
    · subst hne
      rw [show calculateJoinStats ([] ++ [f]) candidate =
          calculateJoinStats [f] candidate from rfl]
      rw [calcStats_ADDITIVE_eq [f] candidate (List.cons_ne_nil _ _)]
      rw [show [f].map (fun g => getKeyCountsFromFile g candidate) = [[]] from by
        rw [List.map_cons, List.map_nil, hcount]]
      rfl
    · rw [calcStats_ADDITIVE_eq (files ++ [f]) candidate (by simp),
        calcStats_ADDITIVE_eq files candidate hne, hkeys]
      congr 1
      exact List.map_congr_left (fun k _ => houter k)
  · by_cases hne : files = []
    · subst hne
      rw [show calculateJoinStats ([] ++ [f]) candidate =
          calculateJoinStats [f] candidate from rfl]
      rw [calcStats_LEFT_eq [f] candidate (List.cons_ne_nil _ _)]
      rw [show [f].map (fun g => getKeyCountsFromFile g candidate) = [[]] from by
        rw [List.map_cons, List.map_nil, hcount]]
      rfl
    · rw [calcStats_LEFT_eq (files ++ [f]) candidate (by simp),
        calcStats_LEFT_eq files candidate hne, hkeys]
      congr 1
      exact List.map_congr_left (fun k _ => hleft k)
  · rw [joinDatasets_eq_flatMap]
    apply flatMap_eq_nil_of
    intro k hkmem
    have hkne := mem_allKeys_ne_sentinel (files ++ [f]) candidate k hkmem
    simp only [recordsForKey]
    rw [if_pos]
    refine ⟨by trivial, ?_⟩
    rw [rowsPerFileAt_hasData (files ++ [f]) candidate k hkne,
      List.any_eq_true]
    refine ⟨!(fileGroup f candidate k).isEmpty,
      List.mem_map.mpr ⟨f, List.mem_append_right _ (List.mem_singleton.mpr rfl), rfl⟩, ?_⟩
    rw [hgroup k]
    rfl
  · intro k combo hcombo
    rw [cartesian_eq_specCartesian] at hcombo
    obtain ⟨hlen, hidx⟩ := mem_specCartesian _ _ hcombo
    have hlen' : combo.length = files.length + 1 := by
      rw [hlen]
      unfold rowsPerFileAt
      rw [List.length_map, List.length_map, List.length_append]
      rfl
    obtain ⟨a, ha⟩ : ∃ a, combo.get? files.length = some a := by
      cases hga : combo.get? files.length with
      | none => rw [List.get?_eq_none] at hga; omega
      | some a => exact ⟨a, rfl⟩
    have hb : (rowsPerFileAt ((files ++ [f]).map
        (fun g => getFileDataMap g candidate)) k).get? files.length =
        some [none] := by
      unfold rowsPerFileAt
      rw [List.get?_map, List.get?_map, List.get?_concat_length]
      simp only [Option.map_some']
      rw [hdata]
      rfl
    have := hidx files.length a _ ha hb
    rw [List.mem_singleton] at this
    rw [ha, this]

/-- An unmapped extra dataset for the C8 witness. -/
def unmappedFile : ParsedFile :=
  { name := "zz.csv", data := [[("k", Value.vStr "9")]] }

/-- Witness for C8: appending an unmapped dataset to the whitespace-file
scenario. -/
theorem unmapped_dataset_degrades_witness :
    getKeyColumnForFile unmappedFile whitespaceCandidate = none ∧
    (getKeyCountsFromFile unmappedFile whitespaceCandidate = [] ∧
     getFileDataMap unmappedFile whitespaceCandidate = [] ∧
     (calculateJoinStats ([whitespaceFile] ++ [unmappedFile])
        whitespaceCandidate).OUTER =
       (calculateJoinStats [whitespaceFile] whitespaceCandidate).OUTER ∧
     (calculateJoinStats ([whitespaceFile] ++ [unmappedFile])
        whitespaceCandidate).ADDITIVE =
       (calculateJoinStats [whitespaceFile] whitespaceCandidate).ADDITIVE ∧
     (calculateJoinStats ([whitespaceFile] ++ [unmappedFile])
        whitespaceCandidate).LEFT =
       (calculateJoinStats [whitespaceFile] whitespaceCandidate).LEFT ∧
     joinDatasets ([whitespaceFile] ++ [unmappedFile]) whitespaceCandidate
       JoinType.INNER = [] ∧
     (∀ k combo, combo ∈ cartesian
         (rowsPerFileAt (([whitespaceFile] ++ [unmappedFile]).map
           (fun g => getFileDataMap g whitespaceCandidate)) k) →
       combo.get? [whitespaceFile].length = some none)) :=
  ⟨rfl, unmapped_dataset_degrades [whitespaceFile] whitespaceCandidate
    unmappedFile rfl⟩

/-! ### Semantic-merge response handling (C9)

`generateSemanticMerge` calls an external model, then post-processes
`response.text`: a missing text or a JSON parse failure yields `[]`,
a non-array parse result yields `[]`, and each element of an array
result is flattened into a record of primitive values.  The external
call and `JSON.parse` itself are modelled by passing the parse outcome
(`none` = absent text or parse failure) to the handler. -/

/-- A parsed JSON value. -/
inductive Json where
  | null : Json
  | bool : Bool → Json
  | num : Int → Json
  | str : String → Json
  | arr : List Json → Json
  | obj : List (String × Json) → Json

mutual
/-- `JSON.stringify` on a parsed JSON value. -/
def jsonStringify : Json → String
  | Json.null => "null"
  | Json.bool b => if b then "true" else "false"
  | Json.num n => toString n
  | Json.str s => "\"" ++ jsonEscape s ++ "\""
  | Json.arr l => "[" ++ jsonStringifyElems l ++ "]"
  | Json.obj kvs => "\x7b" ++ jsonStringifyFields kvs ++ "\x7d"

def jsonStringifyElems : List Json → String
  | [] => ""
  | v :: vs =>
      jsonStringify v
      ++ (match vs with | [] => "" | _ :: _ => ",")
      ++ jsonStringifyElems vs

def jsonStringifyFields : List (String × Json) → String
  | [] => ""
  | kv :: kvs =>
      "\"" ++ jsonEscape kv.1 ++ "\":" ++ jsonStringify kv.2
      ++ (match kvs with | [] => "" | _ :: _ => ",")
      ++ jsonStringifyFields kvs
end

/-- `typeof v === 'object'` on a JSON value (null, arrays, objects). -/
def jsonIsObjectLike : Json → Bool
  | Json.null => true
  | Json.arr _ => true
  | Json.obj _ => true
  | _ => false

/-- `String(v)` on a JSON primitive (the non-object branch of the
array-flattening map). -/
def jsonPrimString : Json → String
  | Json.null => "null"
  | Json.bool b => if b then "true" else "false"
  | Json.num n => toString n
  | Json.str s => s
  | Json.arr _ => ""
  | Json.obj _ => ""

/-- The per-value flattening inside `cleanRow`: null stays null, arrays
join their stringified elements with `" | "`, objects JSON-stringify,
primitives pass through. -/
def cleanVal : Json → Json
  | Json.null => Json.null
  | Json.arr l =>
      Json.str (String.intercalate " | "
        (l.map (fun v => if jsonIsObjectLike v then jsonStringify v
          else jsonPrimString v)))
  | Json.obj kvs => Json.str (jsonStringify (Json.obj kvs))
  | v => v

/-- One row of the external array response.  A non-object (or null) row
becomes the empty record; a JS array passes `typeof row === 'object'`
and is enumerated by `Object.keys` as an index-keyed record. -/
def cleanSemanticRow : Json → List (String × Json)
  | Json.obj kvs => kvs.map (fun kv => (kv.1, cleanVal kv.2))
  | Json.arr l => l.enum.map (fun p => (toString p.1, cleanVal p.2))
  | _ => []

/-- The result handling of `generateSemanticMerge` after the external
call: `none` models `!response.text` or a `JSON.parse` failure. -/
def processSemanticResult : Option Json → List (List (String × Json))
  | none => []
  | some (Json.arr rows) => rows.map cleanSemanticRow
  | some _ => []

/-- C9 counterexample — an array element of the array response is not a
record, yet it does not sanitize to an empty record: it becomes an
index-keyed record. -/
theorem semanticMerge_array_element_counterexample :
    processSemanticResult (some (Json.arr [Json.arr [Json.num 7]])) =
      [[("0", Json.num 7)]] ∧
    ([(("0" : String), Json.num 7)] : List (String × Json)) ≠ [] :=
  ⟨rfl, by simp⟩

/-- C9 (amended) — the semantic-merge result handling is total and never
raises: a missing/unparsable response or a non-array response yields the
empty result, a null or primitive (string, number, boolean) element of
an array response sanitizes to the empty record, and an array element is
enumerated as an index-keyed record rather than failing the merge. -/
theorem semanticMerge_malformed_response_safe :
    processSemanticResult none = [] ∧
    processSemanticResult (some Json.null) = [] ∧
    (∀ b, processSemanticResult (some (Json.bool b)) = []) ∧
    (∀ n, processSemanticResult (some (Json.num n)) = []) ∧
    (∀ s, processSemanticResult (some (Json.str s)) = []) ∧
    (∀ kvs, processSemanticResult (some (Json.obj kvs)) = []) ∧
    (∀ rows, processSemanticResult (some (Json.arr rows)) =
      rows.map cleanSemanticRow) ∧
    cleanSemanticRow Json.null = [] ∧
    (∀ b, cleanSemanticRow (Json.bool b) = []) ∧
    (∀ n, cleanSemanticRow (Json.num n) = []) ∧
    (∀ s, cleanSemanticRow (Json.str s) = []) ∧
    (∀ l, cleanSemanticRow (Json.arr l) =
      l.enum.map (fun p => (toString p.1, cleanVal p.2))) :=
  ⟨rfl, rfl, fun _ => rfl, fun _ => rfl, fun _ => rfl, fun _ => rfl,
   fun _ => rfl, rfl, fun _ => rfl, fun _ => rfl, fun _ => rfl, fun _ => rfl⟩

/-! ### Value sanitization of join output (C3) -/

/-- A file with an array-valued non-key cell. -/
def arrayCellFile : ParsedFile :=
  { name := "f.csv",
    data := [[("k", Value.vStr "1"),
              ("c", Value.vArr [Value.vNum 1, Value.vNum 2])]] }

/-- Candidate for the array-cell file. -/
def arrayCellCandidate : JoinCandidate :=
  { keyName := "K", columnMappings := [⟨"f.csv", "k"⟩] }

/-- C3 counterexample — `joinDatasets` stores the raw cell value, not its
sanitized form: an array-valued source cell yields an array-valued (non
scalar) record value, while `sanitizeValue` would have produced the
flattened string. -/
theorem joinDatasets_stores_raw_value :
    joinDatasets [arrayCellFile] arrayCellCandidate JoinType.OUTER =
      [[("K", Value.vStr "1"),
        ("f - c", Value.vArr [Value.vNum 1, Value.vNum 2])]] ∧
    isScalar (Value.vArr [Value.vNum 1, Value.vNum 2]) = false ∧
    sanitizeValue (Value.vArr [Value.vNum 1, Value.vNum 2]) =
      Value.vStr "1 | 2" :=
  ⟨rfl, rfl, rfl⟩

/-- C3 (amended) — `joinDatasets` itself copies raw cell values; the
all-scalar guarantee is established by the sanitization pass of
`createJoinedFile`, which maps every value through `sanitizeValue`:
every value of every record it produces is a scalar. -/
theorem createJoinedFile_values_scalar :
    (∀ (data : List Row) (row : Row) (kv : String × Value),
      row ∈ createJoinedFileData data → kv ∈ row → isScalar kv.2 = true) ∧
    (∀ v, isScalar (sanitizeValue v) = true) := by
  have hval : ∀ v, isScalar (sanitizeValue v) = true := by
    intro v
    cases v <;> rfl
  refine ⟨?_, hval⟩
  intro data row kv hrow hkv
  unfold createJoinedFileData at hrow
  rw [List.mem_map] at hrow
  obtain ⟨orig, -, rfl⟩ := hrow
  rw [List.mem_map] at hkv
  obtain ⟨kv0, -, rfl⟩ := hkv
  exact hval kv0.2

/-- Witness for C3's amended claim at a concrete array-valued cell. -/
theorem createJoinedFile_values_scalar_witness :
    isScalar ((("c" : String), Value.vStr "1 | 2") : String × Value).2 = true :=
  createJoinedFile_values_scalar.1
    [[("c", Value.vArr [Value.vNum 1, Value.vNum 2])]]
    [("c", Value.vStr "1 | 2")] ("c", Value.vStr "1 | 2")
    (List.mem_singleton.mpr rfl) (List.mem_singleton.mpr rfl)

/-! ### Output column naming (C4) -/

/-- Sanitized file names contain no space character. -/
theorem cleanFileName_no_space (f : ParsedFile) :
    ∀ ch ∈ (cleanFileNameOf f).data, ch ≠ ' ' := by
  intro ch hch
  unfold cleanFileNameOf sanitizeFileName at hch
  rw [show ∀ (l : List Char), (List.asString l).data = l from fun _ => rfl] at hch
  rw [List.mem_map] at hch
  obtain ⟨c, -, rfl⟩ := hch
  by_cases hc : isAlphanumChar c
  · rw [if_pos hc]
    intro hsp
    subst hsp
    exact absurd hc (by decide)
  · rw [if_neg hc]
    decide

/-- Splitting at a separator character absent from both prefixes is
injective. -/
theorem append_sep_inj :
    ∀ (a1 a2 b1 b2 : List Char), (∀ c ∈ a1, c ≠ ' ') → (∀ c ∈ a2, c ≠ ' ') →
      a1 ++ ' ' :: b1 = a2 ++ ' ' :: b2 → a1 = a2 ∧ b1 = b2 := by
  intro a1
  induction a1 with
  | nil =>
      intro a2 b1 b2 _ h2 heq
      cases a2 with
      | nil => simpa using heq
      | cons x a2 =>
          simp only [List.nil_append, List.cons_append, List.cons.injEq] at heq
          exact absurd heq.1.symm (h2 x (List.mem_cons_self x a2))
  | cons x a1 ih =>
      intro a2 b1 b2 h1 h2 heq
      cases a2 with
      | nil =>
          simp only [List.nil_append, List.cons_append, List.cons.injEq] at heq
          exact absurd heq.1 (h1 x (List.mem_cons_self x a1))
      | cons y a2 =>
          simp only [List.cons_append, List.cons.injEq] at heq
          obtain ⟨rfl, heq⟩ := heq
          obtain ⟨ha, hb⟩ := ih a2 b1 b2
            (fun c hc => h1 c (List.mem_cons_of_mem x hc))
            (fun c hc => h2 c (List.mem_cons_of_mem x hc)) heq
          exact ⟨by rw [ha], hb⟩

/-- A file with a dash in its name. -/
def dashFile : ParsedFile :=
  { name := "a-b.csv", data := [[("k", Value.vStr "1"), ("c", Value.vStr "x")]] }

/-- A file with a space in its name — same sanitized name as `dashFile`. -/
def spaceFile : ParsedFile :=
  { name := "a b.csv", data := [[("k", Value.vStr "1"), ("c", Value.vStr "y")]] }

/-- Candidate joining the two colliding-name files on `k`. -/
def collisionCandidate : JoinCandidate :=
  { keyName := "K",
    columnMappings := [⟨"a-b.csv", "k"⟩, ⟨"a b.csv", "k"⟩] }

/-- C4 counterexample — two distinct dataset names with equal sanitized
forms produce the same output column name, and the joined record indeed
holds a single collided column (the first dataset's value is lost). -/
theorem sanitized_name_collision_counterexample :
    dashFile.name ≠ spaceFile.name ∧
    cleanFileNameOf dashFile ++ " - " ++ "c" =
      cleanFileNameOf spaceFile ++ " - " ++ "c" ∧
    joinDatasets [dashFile, spaceFile] collisionCandidate JoinType.OUTER =
      [[("K", Value.vStr "1"), ("a_b - c", Value.vStr "y")]] :=
  ⟨by decide, rfl, rfl⟩

/-- C4 (amended) — the `"<sanitizedName> - <column>"` scheme never
collides across two datasets whose sanitized names are distinct (the
sanitized name is alphanumeric-and-underscore, so the first `" - "`
separator is unambiguous); distinct raw names alone do not suffice. -/
theorem output_column_names_isolated (f g : ParsedFile) (c d : String)
    (hclean : cleanFileNameOf f ≠ cleanFileNameOf g) :
    cleanFileNameOf f ++ " - " ++ c ≠ cleanFileNameOf g ++ " - " ++ d := by
  intro heq
  apply hclean
  have hdata := congrArg String.data heq
  rw [String.data_append, String.data_append, String.data_append,
    String.data_append] at hdata
  have hsep : (cleanFileNameOf f).data ++ ' ' :: ('-' :: ' ' :: c.data) =
      (cleanFileNameOf g).data ++ ' ' :: ('-' :: ' ' :: d.data) := by
    simpa using hdata
  obtain ⟨ha, -⟩ := append_sep_inj _ _ _ _
    (cleanFileName_no_space f) (cleanFileName_no_space g) hsep
  exact String.ext ha

/-- Witness for C4's amended claim at two distinct sanitized names. -/
theorem output_column_names_isolated_witness :
    cleanFileNameOf customersFile ≠ cleanFileNameOf ordersFile ∧
    cleanFileNameOf customersFile ++ " - " ++ "c" ≠
      cleanFileNameOf ordersFile ++ " - " ++ "c" :=
  ⟨by decide,
    output_column_names_isolated customersFile ordersFile "c" "c" (by decide)⟩

/-! ### The key column of output records (C10) -/

/-- Rows drawn from a key group are rows of the file. -/
theorem group_rows_sub_data (f : ParsedFile) (candidate : JoinCandidate)
    (k : String) :
    ∀ row ∈ (mapGet (getFileDataMap f candidate) k).getD [], row ∈ f.data := by
  intro row hrow
  cases hm : mapGet (getFileDataMap f candidate) k with
  | none => rw [hm] at hrow; simp at hrow
  | some rows =>
      rw [hm] at hrow
      simp only [Option.getD_some] at hrow
      by_cases hk : k = ""
      · subst hk
        rw [getFileDataMap_get_sentinel] at hm
        exact Option.noConfusion hm
      · rw [getFileDataMap_get f candidate k hk] at hm
        have hrows : rows = fileGroup f candidate k := by
          cases hfil : fileGroup f candidate k with
          | nil => rw [hfil] at hm; simp at hm
          | cons g gs => rw [hfil] at hm; simp at hm; exact hm.symm
        subst hrows
        unfold fileGroup at hrow
        cases hkc : getKeyColumnForFile f candidate with
        | none => rw [hkc] at hrow; exact absurd hrow (by simp)
        | some kc =>
            rw [hkc] at hrow
            exact (List.mem_filter.mp hrow).1

/-- The per-row column fold never touches a name different from every
generated column name. -/
theorem rowFold_get_preserved (keyCol : Option String) (nm : String) :
    ∀ (row : Row) (jr : Row) (target : String) (v : Value),
    mapGet jr target = some v →
    (∀ cv ∈ row, target ≠ nm ++ " - " ++ cv.1) →
    mapGet (row.foldl (fun jr cv =>
      if some cv.1 = keyCol then jr
      else mapSet jr (nm ++ " - " ++ cv.1) cv.2) jr) target = some v := by
  intro row
  induction row with
  | nil => intro jr target v hv _; exact hv
  | cons cv row ih =>
      intro jr target v hv hne
      rw [List.foldl_cons]
      by_cases hkc : some cv.1 = keyCol
      · rw [if_pos hkc]
        exact ih jr target v hv
          (fun cv' hcv' => hne cv' (List.mem_cons_of_mem cv hcv'))
      · rw [if_neg hkc]
        refine ih _ target v ?_
          (fun cv' hcv' => hne cv' (List.mem_cons_of_mem cv hcv'))
        rw [mapGet_mapSet_ne _ _ _ _ (hne cv (List.mem_cons_self cv row))]
        exact hv

/-- The combination fold preserves any binding whose name differs from
every generated data-column name. -/
theorem comboFold_get_preserved (candidate : JoinCandidate) :
    ∀ (pairs : List (Option Row × ParsedFile))
      (st : Row × List String × List String) (target : String) (v : Value),
    mapGet st.1 target = some v →
    (∀ p ∈ pairs, ∀ row, p.1 = some row → ∀ cv ∈ row,
      target ≠ cleanFileNameOf p.2 ++ " - " ++ cv.1) →
    mapGet ((pairs.foldl (comboStep candidate) st).1) target = some v := by
  intro pairs
  induction pairs with
  | nil => intro st target v hv _; exact hv
  | cons p pairs ih =>
      intro st target v hv hne
      rw [List.foldl_cons]
      obtain ⟨orow, file⟩ := p
      cases orow with
      | none =>
          apply ih _ target v
          · rw [show comboStep candidate st (none, file) =
                (st.1, st.2.1, st.2.2 ++ [file.name]) from rfl]
            exact hv
          · exact fun p' hp' => hne p' (List.mem_cons_of_mem _ hp')
      | some row =>
          apply ih _ target v
          · rw [show comboStep candidate st (some row, file) =
                (row.foldl (fun jr cv =>
                  if some cv.1 = getKeyColumnForFile file candidate then jr
                  else mapSet jr (cleanFileNameOf file ++ " - " ++ cv.1) cv.2)
                  st.1,
                 st.2.1 ++ [file.name], st.2.2) from rfl]
            exact rowFold_get_preserved _ _ row st.1 target v hv
              (fun cv hcv => hne (some row, file)
                (List.mem_cons_self _ _) row rfl cv hcv)
          · exact fun p' hp' => hne p' (List.mem_cons_of_mem _ hp')

/-- The ADDITIVE flag fold preserves any binding whose name differs from
every `_Found_In_<name>` column. -/
theorem flagsFold_get_preserved (found : List String) :
    ∀ (fs : List ParsedFile) (jr : Row) (target : String) (v : Value),
    mapGet jr target = some v →
    (∀ f ∈ fs, target ≠ "_Found_In_" ++ cleanFileNameOf f) →
    mapGet (fs.foldl (fun jr f =>
      mapSet jr ("_Found_In_" ++ cleanFileNameOf f)
        (Value.vStr (if found.contains f.name then "TRUE" else "FALSE"))) jr)
      target = some v := by
  intro fs
  induction fs with
  | nil => intro jr target v hv _; exact hv
  | cons f fs ih =>
      intro jr target v hv hne
      rw [List.foldl_cons]
      apply ih _ target v
      · rw [mapGet_mapSet_ne _ _ _ _ (hne f (List.mem_cons_self f fs))]
        exact hv
      · exact fun f' hf' => hne f' (List.mem_cons_of_mem f hf')

/-- A file whose data column produces an output name equal to the
candidate's key name. -/
def keyCollisionFile : ParsedFile :=
  { name := "f.csv", data := [[("k", Value.vStr "1"), ("c", Value.vStr "X")]] }

/-- A candidate whose key name collides with the generated column
`"f - c"`. -/
def keyCollisionCandidate : JoinCandidate :=
  { keyName := "f - c", columnMappings := [⟨"f.csv", "k"⟩] }

/-- C10 counterexample — when a generated output column name equals
`candidate.keyName`, the data value overwrites the key: the record's
value under the key name is the raw cell value `"X"`, not the normalized
key `"1"`. -/
theorem key_value_overwritten_counterexample :
    joinDatasets [keyCollisionFile] keyCollisionCandidate JoinType.OUTER =
      [[("f - c", Value.vStr "X")]] ∧
    normalizeKey (mapGet [(("k" : String), Value.vStr "1"),
      (("c" : String), Value.vStr "X")] "k") = "1" ∧
    Value.vStr "X" ≠ Value.vStr "1" :=
  ⟨rfl, rfl, by intro h; injection h with h'; exact absurd h' (by decide)⟩

/-- C10 (amended) — provided no generated output column name (data
columns, `_Join_Status`, `_Found_In_<name>`) equals the candidate's key
name, every record decomposes as `buildJoinedRow` over some key `k` of
the union and a combination drawn from `k`'s own row groups, and the
record's value under `candidate.keyName` is exactly that `k`;
normalization is the trimmed string form, so a numeric raw key appears
as its decimal string and whitespace-differing raw keys coincide. -/
theorem joined_key_value_is_normalized_key :
    (∀ (files : List ParsedFile) (candidate : JoinCandidate) (jt : JoinType),
      (∀ f ∈ files, ∀ row ∈ f.data, ∀ cv ∈ row,
        candidate.keyName ≠ cleanFileNameOf f ++ " - " ++ cv.1) →
      candidate.keyName ≠ "_Join_Status" →
      (∀ f ∈ files, candidate.keyName ≠ "_Found_In_" ++ cleanFileNameOf f) →
      ∀ rec ∈ joinDatasets files candidate jt, ∃ k combo,
        k ∈ allKeysFrom (files.map (fun f => getFileDataMap f candidate)) ∧
        combo ∈ cartesian
          (rowsPerFileAt (files.map (fun f => getFileDataMap f candidate)) k) ∧
        rec = buildJoinedRow files candidate jt k combo ∧
        mapGet rec candidate.keyName = some (Value.vStr k)) ∧
    normalizeKey (some (Value.vNum 101)) = "101" ∧
    normalizeKey (some (Value.vStr " 101 ")) = "101" := by
  refine ⟨?_, rfl, rfl⟩
  intro files candidate jt h1 h2 h3 rec hrec
  obtain ⟨k, combo, hkmem, hcombo, rfl⟩ :=
    mem_joinDatasets_decomp files candidate jt rec hrec
  obtain ⟨-, hpos⟩ := combo_rows_mem files candidate k combo hcombo
  refine ⟨k, combo, hkmem, hcombo, rfl, ?_⟩
  have hzip : ∀ p ∈ combo.zip files, ∀ row, p.1 = some row → ∀ cv ∈ row,
      candidate.keyName ≠ cleanFileNameOf p.2 ++ " - " ++ cv.1 := by
    rintro ⟨orow, f⟩ hp row hrow cv hcv
    obtain ⟨i, hi⟩ := List.mem_iff_get?.mp hp
    rw [zip_get?] at hi
    cases hc : combo.get? i with
    | none => rw [hc] at hi; exact Option.noConfusion hi
    | some orow' =>
        cases hf : files.get? i with
        | none => rw [hc, hf] at hi; exact Option.noConfusion hi
        | some f' =>
            rw [hc, hf] at hi
            simp only [Option.some.injEq, Prod.mk.injEq] at hi
            obtain ⟨hor, hff⟩ := hi
            have hc' : combo.get? i = some orow := by rw [hc, hor]
            obtain ⟨g, hg, hrowg⟩ := hpos i orow hc' row hrow
            have hgf : g = f := by
              rw [hf] at hg
              have hfg : f' = g := by injection hg
              rw [← hfg, hff]
            have hdata : row ∈ f.data := by
              rw [← hgf]
              exact group_rows_sub_data g candidate k row hrowg
            exact h1 f (List.of_mem_zip hp).2 row hdata cv hcv
  simp only [buildJoinedRow]
  have hbase : mapGet ((combo.zip files).foldl (comboStep candidate)
      ([(candidate.keyName, Value.vStr k)], [], [])).1 candidate.keyName =
      some (Value.vStr k) :=
    comboFold_get_preserved candidate (combo.zip files) _ _ _
      (by rw [mapGet_cons]; simp) hzip
  by_cases hjt : jt = JoinType.ADDITIVE
  · rw [if_pos hjt]
    refine flagsFold_get_preserved _ files _ _ _ ?_ h3
    split
    · rw [mapGet_mapSet_ne _ _ _ _ h2]
      exact hbase
    · split
      · rw [mapGet_mapSet_ne _ _ _ _ h2]
        exact hbase
      · rw [mapGet_mapSet_ne _ _ _ _ h2]
        exact hbase
  · rw [if_neg hjt]
    exact hbase

/-- Witness for C10's amended claim at a concrete input. -/
theorem joined_key_value_witness :
    (∀ f ∈ [whitespaceFile], ∀ row ∈ f.data, ∀ cv ∈ row,
      whitespaceCandidate.keyName ≠ cleanFileNameOf f ++ " - " ++ cv.1) ∧
    whitespaceCandidate.keyName ≠ "_Join_Status" ∧
    (∀ f ∈ [whitespaceFile],
      whitespaceCandidate.keyName ≠ "_Found_In_" ++ cleanFileNameOf f) ∧
    (∀ rec ∈ joinDatasets [whitespaceFile] whitespaceCandidate
        JoinType.ADDITIVE, ∃ k combo,
      k ∈ allKeysFrom ([whitespaceFile].map
        (fun f => getFileDataMap f whitespaceCandidate)) ∧
      combo ∈ cartesian (rowsPerFileAt ([whitespaceFile].map
        (fun f => getFileDataMap f whitespaceCandidate)) k) ∧
      rec = buildJoinedRow [whitespaceFile] whitespaceCandidate
        JoinType.ADDITIVE k combo ∧
      mapGet rec whitespaceCandidate.keyName = some (Value.vStr k)) :=
  ⟨by decide, by decide, by decide,
    joined_key_value_is_normalized_key.1 [whitespaceFile] whitespaceCandidate
      JoinType.ADDITIVE (by decide) (by decide) (by decide)⟩

/-! ### ADDITIVE status and provenance columns (C6) -/

/-- Names of the datasets contributing a row to a combination. -/
def foundNames (files : List ParsedFile) (combo : List (Option Row)) :
    List String :=
  ((combo.zip files).filter (fun rf => rf.1.isSome)).map (fun rf => rf.2.name)

/-- Names of the datasets missing from a combination. -/
def missingNames (files : List ParsedFile) (combo : List (Option Row)) :
    List String :=
  ((combo.zip files).filter (fun rf => !rf.1.isSome)).map (fun rf => rf.2.name)

/-- The combination fold accumulates exactly the found/missing name
lists, in order. -/
theorem comboFold_acc (candidate : JoinCandidate) :
    ∀ (pairs : List (Option Row × ParsedFile))
      (st : Row × List String × List String),
    (pairs.foldl (comboStep candidate) st).2.1 =
        st.2.1 ++ (pairs.filter (fun rf => rf.1.isSome)).map (fun rf => rf.2.name) ∧
      (pairs.foldl (comboStep candidate) st).2.2 =
        st.2.2 ++ (pairs.filter (fun rf => !rf.1.isSome)).map (fun rf => rf.2.name) := by
  intro pairs
  induction pairs with
  | nil => intro st; simp
  | cons p pairs ih =>
      intro st
      rw [List.foldl_cons]
      obtain ⟨orow, file⟩ := p
      cases orow with
      | none =>
          have hf1 : List.filter (fun rf : Option Row × ParsedFile => rf.1.isSome)
              ((none, file) :: pairs) =
              List.filter (fun rf : Option Row × ParsedFile => rf.1.isSome) pairs :=
            List.filter_cons_of_neg (by simp)
          have hf2 : List.filter (fun rf : Option Row × ParsedFile => !rf.1.isSome)
              ((none, file) :: pairs) =
              (none, file) ::
                List.filter (fun rf : Option Row × ParsedFile => !rf.1.isSome) pairs :=
            List.filter_cons_of_pos (by simp)
          rw [hf1, hf2]
          obtain ⟨ih1, ih2⟩ := ih (comboStep candidate st (none, file))
          rw [ih1, ih2]
          rw [show comboStep candidate st (none, file) =
              (st.1, st.2.1, st.2.2 ++ [file.name]) from rfl]
          simp
      | some row =>
          have hf1 : List.filter (fun rf : Option Row × ParsedFile => rf.1.isSome)
              ((some row, file) :: pairs) =
              (some row, file) ::
                List.filter (fun rf : Option Row × ParsedFile => rf.1.isSome) pairs :=
            List.filter_cons_of_pos (by simp)
          have hf2 : List.filter (fun rf : Option Row × ParsedFile => !rf.1.isSome)
              ((some row, file) :: pairs) =
              List.filter (fun rf : Option Row × ParsedFile => !rf.1.isSome) pairs :=
            List.filter_cons_of_neg (by simp)
          rw [hf1, hf2]
          obtain ⟨ih1, ih2⟩ := ih (comboStep candidate st (some row, file))
          rw [ih1, ih2]
          rw [show (comboStep candidate st (some row, file)).2 =
              (st.2.1 ++ [file.name], st.2.2) from rfl]
          simp

/-- `_Found_In_<name>` columns never collide with `_Join_Status`. -/
theorem found_ne_status (s : String) : ("_Found_In_" ++ s) ≠ "_Join_Status" := by
  intro h
  have h2 : ('_' :: 'F' :: 'o' :: 'u' :: 'n' :: 'd' :: '_' :: 'I' :: 'n' :: '_' :: []) ++ s.data =
      ('_' :: 'J' :: 'o' :: 'i' :: 'n' :: '_' :: 'S' :: 't' :: 'a' :: 't' :: 'u' :: 's' :: []) := by
    have h3 := congrArg String.data h
    rw [String.data_append] at h3
    exact h3
  rw [List.cons_append] at h2
  injection h2 with e1 h4
  rw [List.cons_append] at h4
  injection h4 with e2 h5
  exact absurd e2 (by decide)

/-- The `_Found_In_` prefix is injective. -/
theorem found_prefix_inj (a b : String)
    (h : ("_Found_In_" ++ a) = ("_Found_In_" ++ b)) : a = b := by
  have h2 := congrArg String.data h
  rw [String.data_append, String.data_append] at h2
  exact String.ext (List.append_cancel_left h2)

/-- The flag fold writes each dataset's own flag, and later writes do not
clobber it when sanitized names are pairwise distinct. -/
theorem flagsFold_get_self (found : List String) :
    ∀ (fs : List ParsedFile) (jr : Row) (f : ParsedFile), f ∈ fs →
    List.Pairwise (fun a b => cleanFileNameOf a ≠ cleanFileNameOf b) fs →
    mapGet (fs.foldl (fun jr g =>
      mapSet jr ("_Found_In_" ++ cleanFileNameOf g)
        (Value.vStr (if found.contains g.name then "TRUE" else "FALSE"))) jr)
      ("_Found_In_" ++ cleanFileNameOf f) =
      some (Value.vStr (if found.contains f.name then "TRUE" else "FALSE")) := by
  intro fs
  induction fs with
  | nil => intro jr f hf; exact absurd hf (by simp)
  | cons g gs ih =>
      intro jr f hf hpw
      obtain ⟨hg, hgs⟩ := List.pairwise_cons.mp hpw
      rw [List.foldl_cons]
      rcases List.mem_cons.mp hf with rfl | hfgs
      · exact flagsFold_get_preserved found gs _ _ _
          (mapGet_mapSet_self _ _ _)
          (fun g' hg' h => hg g' hg' (found_prefix_inj _ _ h.symm).symm)
      · exact ih _ f hfgs hgs

/-- Positions in a pairwise-name-distinct file list are determined by the
name. -/
theorem name_pos_unique (files : List ParsedFile)
    (hpw : List.Pairwise (fun a b : ParsedFile => a.name ≠ b.name) files)
    (i j : Nat) (f g : ParsedFile) (hf : files.get? i = some f)
    (hg : files.get? j = some g) (hname : f.name = g.name) : i = j := by
  rcases Nat.lt_trichotomy i j with hij | hij | hij
  · exfalso
    obtain ⟨hi, hfi⟩ := List.get?_eq_some.mp hf
    obtain ⟨hj, hgj⟩ := List.get?_eq_some.mp hg
    have := List.pairwise_iff_get.mp hpw ⟨i, hi⟩ ⟨j, hj⟩ hij
    rw [hfi, hgj] at this
    exact this hname
  · exact hij
  · exfalso
    obtain ⟨hi, hfi⟩ := List.get?_eq_some.mp hf
    obtain ⟨hj, hgj⟩ := List.get?_eq_some.mp hg
    have := List.pairwise_iff_get.mp hpw ⟨j, hj⟩ ⟨i, hi⟩ hij
    rw [hfi, hgj] at this
    exact this hname.symm

/-- Under pairwise-distinct names, membership of a file's name in the
found list reflects whether its position holds a row. -/
theorem contains_foundNames (files : List ParsedFile)
    (combo : List (Option Row))
    (hpw : List.Pairwise (fun a b : ParsedFile => a.name ≠ b.name) files)
    (i : Nat) (f : ParsedFile) (orow : Option Row)
    (hf : files.get? i = some f) (hc : combo.get? i = some orow) :
    (foundNames files combo).contains f.name = orow.isSome := by
  cases hsome : orow.isSome with
  | true =>
      have hmem : (orow, f) ∈ combo.zip files := by
        rw [List.mem_iff_get?]
        refine ⟨i, ?_⟩
        rw [zip_get?, hc, hf]
      have : f.name ∈ foundNames files combo := by
        unfold foundNames
        rw [List.mem_map]
        refine ⟨(orow, f), ?_, rfl⟩
        rw [List.mem_filter]
        exact ⟨hmem, hsome⟩
      rw [show (foundNames files combo).contains f.name =
          List.elem f.name (foundNames files combo) from rfl]
      rw [List.elem_iff.mpr this]
  | false =>
      cases hcontains : (foundNames files combo).contains f.name with
      | false => rfl
      | true =>
          exfalso
          have hmem : f.name ∈ foundNames files combo := by
            rw [show (foundNames files combo).contains f.name =
                List.elem f.name (foundNames files combo) from rfl] at hcontains
            exact List.elem_iff.mp hcontains
          unfold foundNames at hmem
          rw [List.mem_map] at hmem
          obtain ⟨rf, hrf, hrfname⟩ := hmem
          rw [List.mem_filter] at hrf
          obtain ⟨hrfzip, hrfsome⟩ := hrf
          obtain ⟨j, hj⟩ := List.mem_iff_get?.mp hrfzip
          rw [zip_get?] at hj
          cases hcj : combo.get? j with
          | none => rw [hcj] at hj; exact Option.noConfusion hj
          | some orow' =>
              cases hfj : files.get? j with
              | none => rw [hcj, hfj] at hj; exact Option.noConfusion hj
              | some g =>
                  rw [hcj, hfj] at hj
                  simp only [Option.some.injEq] at hj
                  have hij : i = j := by
                    apply name_pos_unique files hpw i j f g hf hfj
                    rw [← hrfname, ← hj]
                  rw [← hij] at hcj
                  rw [hc] at hcj
                  have horow : orow = orow' := by injection hcj
                  rw [← hj] at hrfsome
                  rw [← horow] at hrfsome
                  simp only at hrfsome
                  rw [hsome] at hrfsome
                  exact Bool.noConfusion hrfsome

/-- A contributing file whose sanitized name collides with the next one. -/
def foundSpaceFile : ParsedFile :=
  { name := "a b.csv", data := [[("k", Value.vStr "1"), ("c", Value.vStr "x")]] }

/-- A rowless file with the same sanitized name as `foundSpaceFile`. -/
def foundDashFile : ParsedFile :=
  { name := "a-b.csv", data := [] }

/-- Candidate joining the two flag-colliding files on `k`. -/
def foundCandidate : JoinCandidate :=
  { keyName := "K",
    columnMappings := [⟨"a b.csv", "k"⟩, ⟨"a-b.csv", "k"⟩] }

/-- C6 counterexample — two datasets with the same sanitized name share
one `_Found_In_a_b` column; the record of the contributing dataset ends
up flagged `"FALSE"` because the missing dataset's write clobbers it. -/
theorem additive_flag_collision_counterexample :
    joinDatasets [foundSpaceFile, foundDashFile] foundCandidate
      JoinType.ADDITIVE =
      [[("K", Value.vStr "1"), ("a_b - c", Value.vStr "x"),
        ("_Join_Status", Value.vStr "Unique to a b.csv"),
        ("_Found_In_a_b", Value.vStr "FALSE")]] ∧
    cleanFileNameOf foundSpaceFile = "a_b" ∧
    cleanFileNameOf foundDashFile = "a_b" ∧
    foundSpaceFile.name ≠ foundDashFile.name :=
  ⟨rfl, rfl, rfl, by decide⟩

/-- C6 (amended) — in ADDITIVE mode, provided the datasets' sanitized
names are pairwise distinct, every output record carries `_Join_Status`
set by the stated precedence over its found/missing dataset lists, and
one `_Found_In_<sanitizedName>` column per dataset holding `"TRUE"` or
`"FALSE"` according to whether that dataset contributed a row to the
combination. -/
theorem additive_status_and_flags (files : List ParsedFile)
    (candidate : JoinCandidate)
    (hpw : List.Pairwise
      (fun a b => cleanFileNameOf a ≠ cleanFileNameOf b) files) :
    ∀ rec ∈ joinDatasets files candidate JoinType.ADDITIVE, ∃ k combo,
      rec = buildJoinedRow files candidate JoinType.ADDITIVE k combo ∧
      combo.length = files.length ∧
      mapGet rec "_Join_Status" = some (Value.vStr
        (if (missingNames files combo).length = 0 then "Matched (All Files)"
         else if (foundNames files combo).length = 1 then
           "Unique to " ++ (foundNames files combo).headD ""
         else "Partial Match (Found in " ++
           toString (foundNames files combo).length ++ "/" ++
           toString files.length ++ ")")) ∧
      (∀ i f orow, files.get? i = some f → combo.get? i = some orow →
        mapGet rec ("_Found_In_" ++ cleanFileNameOf f) =
          some (Value.vStr (if orow.isSome then "TRUE" else "FALSE"))) := by
  intro rec hrec
  obtain ⟨k, combo, hkmem, hcombo, rfl⟩ :=
    mem_joinDatasets_decomp files candidate JoinType.ADDITIVE rec hrec
  obtain ⟨hlen, -⟩ := combo_rows_mem files candidate k combo hcombo
  have hfound : ((combo.zip files).foldl (comboStep candidate)
      ([(candidate.keyName, Value.vStr k)], [], [])).2.1 =
      foundNames files combo := by
    rw [(comboFold_acc candidate (combo.zip files) _).1]
    rfl
  have hmiss : ((combo.zip files).foldl (comboStep candidate)
      ([(candidate.keyName, Value.vStr k)], [], [])).2.2 =
      missingNames files combo := by
    rw [(comboFold_acc candidate (combo.zip files) _).2]
    rfl
  refine ⟨k, combo, rfl, hlen, ?_, ?_⟩
  · simp only [buildJoinedRow, if_pos rfl]
    rw [hfound, hmiss]
    by_cases hA : (missingNames files combo).length = 0
    · rw [if_pos hA, if_pos hA]
      exact flagsFold_get_preserved _ files _ _ _
        (mapGet_mapSet_self _ _ _)
        (fun f _ => (found_ne_status (cleanFileNameOf f)).symm)
    · rw [if_neg hA, if_neg hA]
      by_cases hB : (foundNames files combo).length = 1
      · rw [if_pos hB, if_pos hB]
        exact flagsFold_get_preserved _ files _ _ _
          (mapGet_mapSet_self _ _ _)
          (fun f _ => (found_ne_status (cleanFileNameOf f)).symm)
      · rw [if_neg hB, if_neg hB]
        exact flagsFold_get_preserved _ files _ _ _
          (mapGet_mapSet_self _ _ _)
          (fun f _ => (found_ne_status (cleanFileNameOf f)).symm)
  · intro i f orow hfi hci
    have hfmem : f ∈ files := List.get?_mem hfi
    have hnames : List.Pairwise (fun a b : ParsedFile => a.name ≠ b.name) files :=
      hpw.imp (fun h hn => h (by unfold cleanFileNameOf; rw [hn]))
    simp only [buildJoinedRow, if_pos rfl]
    rw [hfound]
    rw [show (if orow.isSome then ("TRUE" : String) else "FALSE") =
        (if (foundNames files combo).contains f.name then "TRUE" else "FALSE")
      from by rw [contains_foundNames files combo hnames i f orow hfi hci]]
    exact flagsFold_get_self (foundNames files combo) files _ f hfmem hpw

/-- Witness for C6's amended claim on the §8 scenario files. -/
theorem additive_status_and_flags_witness :
    List.Pairwise (fun a b => cleanFileNameOf a ≠ cleanFileNameOf b)
      [customersFile, ordersFile] ∧
    (∀ rec ∈ joinDatasets [customersFile, ordersFile] sectionEightCandidate
        JoinType.ADDITIVE, ∃ k combo,
      rec = buildJoinedRow [customersFile, ordersFile] sectionEightCandidate
        JoinType.ADDITIVE k combo ∧
      combo.length = [customersFile, ordersFile].length ∧
      mapGet rec "_Join_Status" = some (Value.vStr
        (if (missingNames [customersFile, ordersFile] combo).length = 0 then
          "Matched (All Files)"
         else if (foundNames [customersFile, ordersFile] combo).length = 1 then
           "Unique to " ++
             (foundNames [customersFile, ordersFile] combo).headD ""
         else "Partial Match (Found in " ++
           toString (foundNames [customersFile, ordersFile] combo).length ++
           "/" ++ toString [customersFile, ordersFile].length ++ ")")) ∧
      (∀ i f orow, [customersFile, ordersFile].get? i = some f →
        combo.get? i = some orow →
        mapGet rec ("_Found_In_" ++ cleanFileNameOf f) =
          some (Value.vStr (if orow.isSome then "TRUE" else "FALSE")))) :=
  ⟨by decide,
    additive_status_and_flags [customersFile, ordersFile] sectionEightCandidate
      (by decide)⟩
